import Mathlib

/-!
Shallow embedding of the analytical core of the `xephyr-insights` repository
(`src/lib/stats.ts` and `src/lib/insights.ts`), together with theorems that
settle the frozen claims about its specification.

Modelling conventions
=====================
* JavaScript numbers are modelled as exact rationals (`ℚ`).  Every value the
  source computes with plain field operations (+, -, *, /) is carried exactly.
  Where the source takes a square root (`Math.sqrt`) the embedding carries the
  radicand instead and compares through squares; each such place is documented
  at the definition.
* JavaScript strings are opaque: a cell string is modelled as its text plus
  the observations the source makes of it (regex test, `Date.parse`,
  `Number(...)`), recorded as fields of `JsStr`.  Theorems quantify over all
  field combinations, a superset of the combinations real strings realise, so
  universally quantified results remain sound for the real program; concrete
  inputs used in witnesses and counterexamples use field values matching real
  JavaScript strings.
* `Date` objects are a valid timestamp (integer milliseconds) plus an object
  identity token `oid`: JavaScript compares `Date`s by reference in `Set`s,
  never by value, and the token models that reference.
* Cell values follow the input contract of the spec (§6): number / string /
  date / null, plus `undefined` for an absent key.
-/

namespace XI

/-- A JavaScript string cell, as the source observes it.
`val` is the text itself; the other fields record the outcome of the
operations `stats.ts` applies to cell strings:
`numReRaw` / `numReTrim` are `NUMERIC_RE.test` on the raw and trimmed text,
`numParseTrim` is `Number(s.trim())` when that is finite (`none` = the parse
overflowed to ±Infinity, possible for very long numerals),
`dateParseRaw` / `dateParseTrim` are `Date.parse` of the raw / trimmed text
(`none` = NaN), and `toNumber` is the full `Number(raw)` coercion
(`none` = NaN or non-finite). -/
structure JsStr where
  val : String
  numReRaw : Bool
  numReTrim : Bool
  numParseTrim : Option ℚ
  dateParseRaw : Option ℤ
  dateParseTrim : Option ℤ
  toNumber : Option ℚ
deriving DecidableEq, Repr

/-- A raw table cell: `null`, `undefined` (absent key), a finite JavaScript
number, a string, or a valid `Date` object (`t` = timestamp in ms, `oid` =
object identity: two `Date`s with equal timestamps are still distinct
objects when their `oid`s differ). -/
inductive Value where
  | vnull
  | vundef
  | vnum (x : ℚ)
  | vstr (s : JsStr)
  | vdate (t : ℤ) (oid : ℕ)
deriving DecidableEq, Repr

open Value

/-- A row: the ordered field list of a JavaScript object (insertion order,
no duplicate keys in real objects). -/
abbrev Row := List (String × Value)

/-- `type Table = { columns: string[]; rows: Record<string, any>[] }`. -/
structure Table where
  columns : List String
  rows : List Row
deriving DecidableEq

/-- `r?.[k]`: property access, `undefined` when the key is absent. -/
def getVal (r : Row) (k : String) : Value :=
  (r.lookup k).getD vundef

/-- `r?.[k] ?? null`: the nullish-coalesced access used by `profileTable`. -/
def getValOrNull (r : Row) (k : String) : Value :=
  match getVal r k with
  | vundef => vnull
  | v => v

/-- `coerceValue` from `stats.ts`.  `fresh` is the identity token given to a
`Date` allocated by `new Date(t)` (the caller supplies a globally fresh one);
it has no observable effect besides reference identity.

```
if (v === null || v === undefined || v === "") return null;
if (typeof v === "number" && Number.isFinite(v)) return v;
if (typeof v === "string") {
  const s = v.trim();
  if (NUMERIC_RE.test(s)) { const n = Number(s); return Number.isFinite(n) ? n : v; }
  const t = Date.parse(s);
  if (!Number.isNaN(t)) return new Date(t);
}
return v;
```
-/
def coerceValue (fresh : ℕ) (v : Value) : Value :=
  match v with
  | vnull => vnull
  | vundef => vnull
  | vnum x => vnum x
  | vstr s =>
      if s.val = "" then vnull
      else if s.numReTrim then
        match s.numParseTrim with
        | some n => vnum n
        | none => vstr s
      else
        match s.dateParseTrim with
        | some t => vdate t fresh
        | none => vstr s
  | vdate t oid => vdate t oid

/-- `coerceTable` from `stats.ts`: rebuild every row over exactly
`table.columns`, coercing each cell.  Freshness tokens for allocated `Date`s
are derived from the cell position (row-major), which makes them pairwise
distinct, as real allocation is. -/
def coerceTable (t : Table) : Table :=
  { columns := t.columns
    rows := t.rows.enum.map fun rp =>
      t.columns.enum.map fun cp =>
        (cp.2, coerceValue (rp.1 * t.columns.length + cp.1) (getVal rp.2 cp.2)) }

/-- Is the value a (finite) number cell? -/
def isNumV : Value → Bool
  | vnum _ => true
  | _ => false

/-- Is the value a string cell? -/
def isStrV : Value → Bool
  | vstr _ => true
  | _ => false

/-- A numeral of four hundred nines: passes `NUMERIC_RE`, but `Number` of it
overflows to `Infinity`, so `coerceValue` returns the original string
(`return Number.isFinite(n) ? n : v`).  `Date.parse` of it is NaN. -/
def hugeNumeralStr : JsStr :=
  ⟨String.mk (List.replicate 400 '9'), true, true, none, none, none, none⟩

/-! ## Type inference -/

inductive ColType where
  | number | string | date | unknown
deriving DecidableEq, Repr

/-- How `inferType`'s loop classifies one value: counted as numeric, as a
date, as a string, or skipped (`null`). -/
inductive Cls where
  | cnum | cdate | cstr | cskip
deriving DecidableEq, Repr

/-- The per-value branch of `inferType`'s loop: finite numbers count as
numeric; valid `Date` instances as dates; a string counts as numeric when the
untrimmed text passes `NUMERIC_RE`, else as a date when `Date.parse` succeeds,
else as a string; anything remaining (`undefined`, invalid objects) falls to
the final `else s++`. -/
def classify (v : Value) : Cls :=
  match v with
  | vnull => .cskip
  | vnum _ => .cnum
  | vdate _ _ => .cdate
  | vstr s =>
      if s.numReRaw then .cnum
      else if s.dateParseRaw.isSome then .cdate
      else .cstr
  | vundef => .cstr

def numCount (values : List Value) : ℕ := values.countP (fun v => classify v = .cnum)
def dateCount (values : List Value) : ℕ := values.countP (fun v => classify v = .cdate)
def strCount (values : List Value) : ℕ := values.countP (fun v => classify v = .cstr)

/-- `inferType` from `stats.ts`:
```
const max = Math.max(n, s, d);
if (max === 0) return "unknown";
if (max === n) return "number";
if (max === d) return "date";
return "string";
```
-/
def inferType (values : List Value) : ColType :=
  let n := numCount values
  let s := strCount values
  let d := dateCount values
  let m := max n (max s d)
  if m = 0 then .unknown
  else if m = n then .number
  else if m = d then .date
  else .string

/-! ## Basic statistics and the column profiler -/

/-- `Number(v)` for a cell, `none` when the result is NaN (what
`filter(Number.isFinite)` drops).  `Number(null) = 0`,
`Number(undefined) = NaN`, a `Date` converts to its timestamp, and a string
converts by its recorded `toNumber` observation. -/
def jsNumber : Value → Option ℚ
  | vnull => some 0
  | vundef => none
  | vnum x => some x
  | vstr s => s.toNumber
  | vdate t _ => some (t : ℚ)

/-- `quantile` from `stats.ts`:
```
if (sortedNums.length === 0) return NaN;
const pos = (sortedNums.length - 1) * q;
const base = Math.floor(pos);
const rest = pos - base;
if (sortedNums[base + 1] !== undefined)
  return sortedNums[base] + rest * (sortedNums[base + 1] - sortedNums[base]);
return sortedNums[base];
```
`none` stands for the NaN of the empty case (every call site guards on a
positive count first).  `Int.toNat` on the floor is exact because every call
site passes `q ∈ {0.25, 0.5, 0.75}` (and the theorems below only use
`0 ≤ q ≤ 1`), so `pos ≥ 0`. -/
def quantile (sortedNums : List ℚ) (q : ℚ) : Option ℚ :=
  if sortedNums.isEmpty then none
  else
    let pos : ℚ := ((sortedNums.length : ℚ) - 1) * q
    let base : ℕ := (⌊pos⌋).toNat
    let rest : ℚ := pos - (base : ℚ)
    match sortedNums[base + 1]? with
    | some nxt => some (sortedNums.getD base 0 + rest * (nxt - sortedNums.getD base 0))
    | none => some (sortedNums.getD base 0)

/-- The square of `stdev` from `stats.ts` (the sample variance).  The source
stores `Math.sqrt` of this; the embedding carries the radicand and every
comparison against the source's `stdev` is carried out on squares
(`sd = 0 ↔ stdevSq = 0`, `|x|/sd > 3 ↔ x² > 9·stdevSq`). -/
def stdevSq (nums : List ℚ) (mean : ℚ) : ℚ :=
  if nums.length ≤ 1 then 0
  else (nums.map (fun x => (x - mean) ^ 2)).sum / ((nums.length : ℚ) - 1)

/-- SameValueZero hashing key of a JavaScript `Set` member: primitive numbers
and strings compare by value, `Date` objects by reference (their identity
token), `null` and `undefined` are singleton classes. -/
inductive SvzKey where
  | knum (x : ℚ)
  | kstr (s : String)
  | kdate (oid : ℕ)
  | knull
  | kundef
deriving DecidableEq, Repr

def svzKey : Value → SvzKey
  | vnull => .knull
  | vundef => .kundef
  | vnum x => .knum x
  | vstr s => .kstr s.val
  | vdate _ oid => .kdate oid

/-- SameValueZero equality itself, stated as a relation (used by the C4
amended statement, independently of the hashing key). -/
def svzEq (a b : Value) : Prop :=
  match a, b with
  | vnull, vnull => True
  | vundef, vundef => True
  | vnum x, vnum y => x = y
  | vstr s, vstr u => s.val = u.val
  | vdate _ i, vdate _ j => i = j
  | _, _ => False

instance : DecidableRel svzEq := fun a b => by
  unfold svzEq
  cases a <;> cases b <;> infer_instance

/-- The number of pairwise-inequivalent values under a relation: the size a
JavaScript `Set` reaches after inserting every element of `l`, when `R` is
the `Set`'s member equality. -/
def countDistinctBy (R : Value → Value → Prop) [DecidableRel R] (l : List Value) : ℕ :=
  (l.pwFilter (fun a b => ¬ R a b)).length

/-- `NumericSummary` of `types.ts`, with `stdevSq` carrying the square of the
source's `stdev` field (see `stdevSq`). -/
structure NumericSummary where
  n : ℕ
  mean : ℚ
  median : ℚ
  min : ℚ
  max : ℚ
  stdevSq : ℚ
  q1 : ℚ
  q3 : ℚ
  iqr : ℚ
  outliersIqr : ℕ
  outliersZ : ℕ
deriving DecidableEq, Repr

/-- `ColumnProfile` of `types.ts`. -/
structure ColumnProfile where
  name : String
  type : ColType
  missingPct : ℤ
  distinct : ℕ
  numeric : Option NumericSummary
deriving DecidableEq, Repr

/-- `table.rows.map(r => r?.[c] ?? null)`. -/
def colValues (t : Table) (c : String) : List Value :=
  t.rows.map (fun r => getValOrNull r c)

/-- The numeric branch of `profileTable`'s loop, over the column's values.
`nums` is `colVals.map(Number).filter(Number.isFinite)` — note `Number(null)`
is `0`, so missing cells of a numeric column contribute zeros, exactly as the
source does. -/
def numericSummaryOf (colVals : List Value) : NumericSummary :=
  let nums := colVals.filterMap jsNumber
  let sorted := nums.insertionSort (· ≤ ·)
  let n := nums.length
  let mean := if n = 0 then 0 else nums.sum / (n : ℚ)
  let med := if n = 0 then 0 else (quantile sorted (1/2)).getD 0
  let mn := if n = 0 then 0 else sorted.headD 0
  let mx := if n = 0 then 0 else sorted.getLastD 0
  let sd2 := stdevSq nums mean
  let q1 := if n = 0 then 0 else (quantile sorted (1/4)).getD 0
  let q3 := if n = 0 then 0 else (quantile sorted (3/4)).getD 0
  let iqr := q3 - q1
  let outIqr := nums.countP
    (fun x => decide (x < q1 - 3/2 * iqr ∨ q3 + 3/2 * iqr < x))
  let outZ := if sd2 = 0 then 0
    else nums.countP (fun x => decide (9 * sd2 < (x - mean) ^ 2))
  ⟨n, mean, med, mn, mx, sd2, q1, q3, iqr, outIqr, outZ⟩

/-- The body of `profileTable`'s per-column loop.
`distinct` is `new Set(colVals.filter(v => v !== null)).size`: a `Set` of the
raw values, deduplicated by SameValueZero (so `Date` objects by reference). -/
def profileColumn (t : Table) (c : String) : ColumnProfile :=
  let colVals := colValues t c
  let missing := colVals.countP (fun v => decide (v = vnull))
  let missingPct : ℤ := round (((missing : ℚ) / (max 1 t.rows.length : ℚ)) * 100)
  let ty := inferType colVals
  let distinct := ((colVals.filter (fun v => decide (v ≠ vnull))).map svzKey).dedup.length
  ⟨c, ty, missingPct, distinct,
    if ty = .number then some (numericSummaryOf colVals) else none⟩

/-- `profileTable` from `stats.ts`: one profile per column, in column order. -/
def profileTable (t : Table) : List ColumnProfile :=
  t.columns.map (profileColumn t)

/-! Spec-side stringification, for the C4 comparison.  The claim (and §4.3 of
the spec) says distinct-counting hashes the *stringified* values. -/

/-- Stands for the locale rendering `String(new Date(t))`: it depends only on
`⌊t/1000⌋` — the rendering has second resolution — and is injective there.
The exact text is irrelevant to every statement below. -/
def dateDisplayString (t : ℤ) : String :=
  "@" ++ toString (Int.fdiv t 1000)

/-- Stands for `String(x)` of a JavaScript number.  Integer cells render as
their digits, as in JavaScript; non-integral numbers use an injective
placeholder (JavaScript renders a finite decimal; no statement below depends
on its exact text). -/
def ratNumeral (x : ℚ) : String :=
  if x.den = 1 then toString x.num
  else "#" ++ toString x.num ++ "/" ++ toString x.den

/-- The `String(v)` conversion of a cell (also the claim-side "stringified"
hashing of C4). -/
def strfyKey : Value → String
  | vnull => "null"
  | vundef => "undefined"
  | vnum x => ratNumeral x
  | vstr s => s.val
  | vdate t _ => dateDisplayString t

/-- Spec-side distinct count: the number of distinct stringified non-missing
values (what the claim asserts `profileTable` reports). -/
def distinctStringified (vals : List Value) : ℕ :=
  ((vals.filter (fun v => decide (v ≠ vnull))).map strfyKey).dedup.length

/-- The string `"1"`: passes `NUMERIC_RE`, parses to `1`; `Date.parse("1")`
also succeeds in V8 (year 2001) but is never consulted before the numeric
test. -/
def numStrJs : JsStr :=
  ⟨"1", true, true, some 1, some 978307200000, some 978307200000, some 1⟩

/-- The string `"2020-01-05"`: fails `NUMERIC_RE`, parses as a date;
`Number` of it is NaN. -/
def dateStrJs : JsStr :=
  ⟨"2020-01-05", false, false, none, some 1578182400000, some 1578182400000, none⟩

/-- A concrete numeric-looking string cell. -/
def numLikeStr : Value := vstr numStrJs

/-- A concrete date-looking string cell. -/
def dateLikeStr : Value := vstr dateStrJs

/-- C9 witness table: one numeric column of values `1` and `2`. -/
def c9Table : Table := ⟨["x"], [[("x", vnum 1)], [("x", vnum 2)]]⟩

/-- C9 witness summary: what `profileColumn c9Table "x"` computes. -/
def c9Summary : NumericSummary :=
  ⟨2, 3/2, 3/2, 1, 2, 1/2, 5/4, 7/4, 1/2, 0, 0⟩

/-! ## Associations: Pearson, ranks, Spearman, top correlations -/

/-- Exact representation of the source's floating correlation
`r = num / Math.sqrt(den2)` with `den2 = dx2 * dy2 ≥ 0` (a product of sums of
squares).  The float is irrational in general, so the embedding carries the
pair exactly; `|r₁| ≤ |r₂|` is decided through squares
(`num₁² · den2₂ ≤ num₂² · den2₁`) and `r` is finite whenever `den2 > 0`. -/
structure CorrRep where
  num : ℚ
  den2 : ℚ
deriving DecidableEq, Repr

/-- Two representations denote the same real number `num / √den2` (for
positive `den2`) iff the signs of `num` agree and the squares cross-multiply
equally. -/
def CorrRep.sameR (a b : CorrRep) : Prop :=
  (0 ≤ a.num ↔ 0 ≤ b.num) ∧ a.num ^ 2 * b.den2 = b.num ^ 2 * a.den2

instance : DecidableRel CorrRep.sameR := fun a b => by
  unfold CorrRep.sameR
  infer_instance

/-- `pearson` from `stats.ts`:
```
const n = Math.min(xs.length, ys.length);
if (n < 3) return NaN;
const x = xs.slice(0, n), y = ys.slice(0, n);
const mx = ..., my = ...;             // means
let num = 0, dx2 = 0, dy2 = 0;        // accumulated over i < n
const den = Math.sqrt(dx2 * dy2);
return den ? num / den : NaN;
```
`none` is the source's NaN: either `n < 3` or `den = √(dx2·dy2) = 0`, and
over the reals `√(dx2·dy2) = 0 ↔ dx2·dy2 = 0`.  Otherwise the value is
`num / √(dx2·dy2)`, represented exactly as `⟨num, dx2·dy2⟩`. -/
def pearson (xs ys : List ℚ) : Option CorrRep :=
  let n := min xs.length ys.length
  if n < 3 then none
  else
    let x := xs.take n
    let y := ys.take n
    let mx := x.sum / (n : ℚ)
    let my := y.sum / (n : ℚ)
    let num := ((x.zip y).map (fun p => (p.1 - mx) * (p.2 - my))).sum
    let dx2 := (x.map (fun v => (v - mx) ^ 2)).sum
    let dy2 := (y.map (fun v => (v - my) ^ 2)).sum
    if dx2 * dy2 = 0 then none else some ⟨num, dx2 * dy2⟩

/-- Sum of squared deviations from the mean: the claim's "zero variance in a
series" is `ssd = 0`. -/
def ssd (l : List ℚ) : ℚ :=
  (l.map (fun v => (v - l.sum / (l.length : ℚ)) ^ 2)).sum

/-- Groups the runs of equal values in a list sorted by first component —
the inner `while (j + 1 < idx.length && idx[j+1][0] === idx[i][0]) j++` walk
of the source's `rank`. -/
def tieRuns : List (ℚ × ℕ) → List (List (ℚ × ℕ))
  | [] => []
  | a :: rest =>
    (a :: rest.takeWhile (fun b => decide (b.1 = a.1))) ::
      tieRuns (rest.dropWhile (fun b => decide (b.1 = a.1)))
termination_by l => l.length
decreasing_by
  simp only [List.length_cons]
  exact Nat.lt_succ_of_le (List.dropWhile_sublist _).length_le

/-- Assigns every member of each tie run its average 1-based rank, keyed by
original index.  A run of length `L` starting at sorted position `pos` gets
`(i + j + 2) / 2` with `i = pos`, `j = pos + L - 1`, i.e.
`(2·pos + L + 1) / 2`, as in the source. -/
def assignRanks : ℕ → List (List (ℚ × ℕ)) → List (ℕ × ℚ)
  | _, [] => []
  | pos, g :: gs =>
    (g.map (fun p => (p.2, ((2 * pos + g.length + 1 : ℕ) : ℚ) / 2))) ++
      assignRanks (pos + g.length) gs

/-- `rank` from `stats.ts`: pair each value with its index, sort stably by
value ascending (the comparator `a[0] - b[0]`; insertion sort is likewise
stable, and which member of a tie run sits where cannot matter because every
member receives the same average rank), then write each run's average
1-based rank back into the original positions. -/
def rank (vals : List ℚ) : List ℚ :=
  (List.range vals.length).map
    (fun i => ((assignRanks 0 (tieRuns
      ((vals.zip (List.range vals.length)).insertionSort
        (fun a b => a.1 ≤ b.1)))).lookup i).getD 0)

/-- `spearman` from `stats.ts`: Pearson over the two independently ranked
truncated series. -/
def spearman (xs ys : List ℚ) : Option CorrRep :=
  let n := min xs.length ys.length
  if n < 3 then none
  else pearson (rank (xs.take n)) (rank (ys.take n))

inductive CorrKind where
  | pearson | spearman
deriving DecidableEq, Repr

/-- One entry of `topCorrelations`' `pairs` array. -/
structure CorrPair where
  a : String
  b : String
  r : CorrRep
  kind : CorrKind
deriving DecidableEq, Repr

/-- `table.columns.filter(c => inferType(table.rows.map(r => r[c])) === "number")`
— note the plain `r[c]` access (absent keys become `undefined`), unlike
`profileTable`'s `r?.[c] ?? null`. -/
def numColsOf (t : Table) : List String :=
  t.columns.filter
    (fun c => decide (inferType (t.rows.map (fun r => getVal r c)) = .number))

/-- `table.rows.map(r => Number(r[c])).filter(Number.isFinite)`. -/
def colNums (t : Table) (c : String) : List ℚ :=
  (t.rows.map (fun r => getVal r c)).filterMap jsNumber

/-- The loop body of `topCorrelations` for one column pair: skip when fewer
than 3 finite values on either side, otherwise push the Pearson then the
Spearman entry, each only when finite (`Number.isFinite(r)`). -/
def pairCorrs (t : Table) (a b : String) : List CorrPair :=
  let xs := colNums t a
  let ys := colNums t b
  if min xs.length ys.length < 3 then []
  else
    (match pearson xs ys with
      | some r => [⟨a, b, r, .pearson⟩]
      | none => []) ++
    (match spearman xs ys with
      | some r => [⟨a, b, r, .spearman⟩]
      | none => [])

/-- The double loop `for i ... for j = i+1 ...` of `topCorrelations`. -/
def allPairs (t : Table) : List CorrPair :=
  (numColsOf t).enum.flatMap
    (fun p => ((numColsOf t).drop (p.1 + 1)).flatMap (fun b => pairCorrs t p.2 b))

/-- `|r|²` of a represented correlation — the sort key: for the stored pairs
`den2 > 0` always holds, and `|r₁| ≤ |r₂| ↔ num₁²/den2₁ ≤ num₂²/den2₂`. -/
def absKey (r : CorrRep) : ℚ := r.num ^ 2 / r.den2

/-- The comparator `(p, q) => Math.abs(q.r) - Math.abs(p.r)`: descending by
absolute correlation. -/
def corrGE (p q : CorrPair) : Prop := absKey q.r ≤ absKey p.r

instance : DecidableRel corrGE := fun p q => by
  unfold corrGE
  infer_instance

instance : IsTotal CorrPair corrGE :=
  ⟨fun a b => le_total (absKey b.r) (absKey a.r)⟩

instance : IsTrans CorrPair corrGE :=
  ⟨fun _ _ _ h1 h2 => le_trans h2 h1⟩

/-- `topCorrelations` from `stats.ts`: all finite pair correlations, sorted
descending by `|r|` (stable, as the engine's sort), truncated to `k`. -/
def topCorrelations (t : Table) (k : ℕ) : List CorrPair :=
  ((allPairs t).insertionSort corrGE).take k

/-! ## Trend, changepoint, anomalies (`firstDateTrend`) -/

/-- Truncation toward zero, as `ToIntegerOrInfinity` clips a non-integral
millisecond count in the `Date` constructor. -/
def jsTrunc (x : ℚ) : ℤ := if 0 ≤ x then ⌊x⌋ else ⌈x⌉

/-- `new Date(v).getTime()` for a cell value, `none` when the date is
invalid: a `Date` clones its timestamp; a number is used as a millisecond
timestamp (truncated, NaN outside ±8.64e15); `null` coerces to `0` (the
epoch!); `undefined` gives an invalid date; a string is parsed like
`Date.parse`. -/
def newDateOf : Value → Option ℤ
  | vdate t _ => some t
  | vnum x => if |x| ≤ 8640000000000000 then some (jsTrunc x) else none
  | vnull => some 0
  | vundef => none
  | vstr s => s.dateParseRaw

/-- `+x.toFixed(d)`: round half away from zero toward +∞ at `d` decimals (the
larger candidate wins ties), back as a number.  For nonnegative inputs —
every use here — this is exactly `⌊x·10^d + 1/2⌋ / 10^d`, which is Lean's
`round`. -/
def roundTo (d : ℕ) (x : ℚ) : ℚ := ((round (x * 10 ^ d) : ℤ) : ℚ) / 10 ^ d

/-- `table.columns.find(c => inferType(table.rows.map(r => r[c])) === ty)`. -/
def findCol (t : Table) (ty : ColType) : Option String :=
  t.columns.find?
    (fun c => decide (inferType (t.rows.map (fun r => getVal r c)) = ty))

/-- The `points` array of `firstDateTrend`: build `(new Date(r[dateCol]),
Number(r[numCol]))` pairs, keep those with a valid date and a finite number,
sort ascending by timestamp (stable). -/
def trendPoints (t : Table) (dateCol numCol : String) : List (ℤ × ℚ) :=
  ((t.rows.map
      (fun r => (newDateOf (getVal r dateCol), jsNumber (getVal r numCol)))).filterMap
    (fun p => match p.1, p.2 with
      | some tt, some y => some (tt, y)
      | _, _ => none)).insertionSort (fun a b => a.1 ≤ b.1)

/-- The changepoint loop body: two-segment piecewise-constant fit at `split`,
`gain = 1 - (sse1 + sse2) / sseFull` guarded by `sseFull ? ... : 0`. -/
def gainAt (ys : List ℚ) (split : ℕ) : ℚ :=
  let m1 := (ys.take split).sum / (split : ℚ)
  let m2 := (ys.drop split).sum / ((ys.length - split : ℕ) : ℚ)
  let sse1 := ((ys.take split).map (fun y => (y - m1) ^ 2)).sum
  let sse2 := ((ys.drop split).map (fun y => (y - m2) ^ 2)).sum
  let mean := ys.sum / (ys.length : ℚ)
  let sseFull := (ys.map (fun y => (y - mean) ^ 2)).sum
  if sseFull = 0 then 0 else 1 - (sse1 + sse2) / sseFull

/-- The changepoint scan `for (let split = 3; split <= ys.length - 3; split++)`
starting from `best = { idx: -1, gain: 0 }` and updating on strict
improvement (`if (gain > best.gain)`), so the earliest maximum is kept. -/
def bestSplit (ys : List ℚ) : ℤ × ℚ :=
  (List.range' 3 (ys.length - 5)).foldl
    (fun best split =>
      if best.2 < gainAt ys split then ((split : ℤ), gainAt ys split) else best)
    (-1, 0)

inductive TrendDir where
  | up | down | flat
deriving DecidableEq, Repr

structure Changepoint where
  atIndex : ℤ
  improvement : ℚ
deriving DecidableEq, Repr

/-- The trend result record (`r2` already rounded to 3 decimals, as in the
source). -/
structure TrendResult where
  dateCol : String
  numCol : String
  slope : ℚ
  r2 : ℚ
  dir : TrendDir
  changepoint : Option Changepoint
  anomalies : ℕ
deriving DecidableEq, Repr

/-- The body of `firstDateTrend` once ≥ 3 points exist.  `xs` are the point
indices (`points.map((_, i) => i)`); the source's
`r = Math.sqrt(den && dy2 ? num²/(den·dy2) : 0) * sign(slope)` squares back
to the radicand, so `r2` is carried exactly as `num²/(den·dy2)` (0 under the
guard) and then rounded to 3 decimals; anomaly z-scores compare through
squares against the sample variance (see `stdevSq`). -/
def trendResultOf (dateCol numCol : String) (points : List (ℤ × ℚ)) : TrendResult :=
  let ys := points.map Prod.snd
  let n := ys.length
  let xs := (List.range n).map (fun i => (i : ℚ))
  let mx := xs.sum / (n : ℚ)
  let my := ys.sum / (n : ℚ)
  let num := ((xs.zip ys).map (fun p => (p.1 - mx) * (p.2 - my))).sum
  let den := (xs.map (fun x => (x - mx) ^ 2)).sum
  let dy2 := (ys.map (fun y => (y - my) ^ 2)).sum
  let slope := if den = 0 then 0 else num / den
  let r2 := if den = 0 ∨ dy2 = 0 then 0 else num ^ 2 / (den * dy2)
  let best := bestSplit ys
  let dir := if |slope| < 1 / 100000000 then TrendDir.flat
    else if 0 < slope then TrendDir.up else TrendDir.down
  let changepoint := if 3 / 10 ≤ best.2
    then some ⟨best.1, roundTo 2 best.2⟩ else none
  let sd2 := stdevSq ys my
  let anomalies := if sd2 = 0 then 0
    else ys.countP (fun y => decide (9 * sd2 < (y - my) ^ 2))
  ⟨dateCol, numCol, slope, roundTo 3 r2, dir, changepoint, anomalies⟩

/-- `firstDateTrend` from `stats.ts`: first date-inferred and first
number-inferred column (absent ⇒ `null`), ≥ 3 valid points required. -/
def firstDateTrend (t : Table) : Option TrendResult :=
  match findCol t .date, findCol t .number with
  | some dateCol, some numCol =>
    if (trendPoints t dateCol numCol).length < 3 then none
    else some (trendResultOf dateCol numCol (trendPoints t dateCol numCol))
  | _, _ => none

/-- C3 witness table: 12 rows, dates ascending `0..11` (ms timestamps),
values `[1,1,1,1,1,1,10,10,10,10,10,10]`. -/
def cpTable : Table :=
  ⟨["d", "v"],
   (List.range 12).map (fun i =>
     [("d", vdate ((i : ℕ) : ℤ) i), ("v", vnum (if i < 6 then 1 else 10))])⟩

/-- The value series of `cpTable`. -/
def cpYs : List ℚ := (List.range 12).map (fun i => if i < 6 then 1 else 10)

/-- What `firstDateTrend cpTable` computes: slope `162/143`, `r²` rounded to
`0.755`, changepoint at index `6` with gain `1`, no anomalies. -/
def cpResult : TrendResult :=
  ⟨"d", "v", 162/143, 151/200, .up, some ⟨6, 1⟩, 0⟩

/-! ## Duplicate rows -/

/-- One field value in `JSON.stringify`'s output: `null`, a number, a string,
or a `Date` (serialised via `toISOString`, determined by the exact
timestamp).  The JSON text is injective on this data, so key equality is
equality of the field list. -/
inductive JsonVal where
  | jnull
  | jnum (x : ℚ)
  | jstr (s : String)
  | jdate (t : ℤ)
deriving DecidableEq, Repr

/-- How `JSON.stringify` serialises one cell; an `undefined`-valued field is
dropped from the object entirely (`none`). -/
def jsonVal : Value → Option JsonVal
  | vnull => some .jnull
  | vundef => none
  | vnum x => some (.jnum x)
  | vstr s => some (.jstr s.val)
  | vdate t _ => some (.jdate t)

/-- The `JSON.stringify(r)` key of a row: fields in insertion order,
`undefined`-valued ones dropped. -/
def rowKey (r : Row) : List (String × JsonVal) :=
  r.filterMap (fun p => (jsonVal p.2).map (fun j => (p.1, j)))

/-- The loop of `duplicateRows`: `seen` is the `Set` of serialised keys;
a row whose key was seen before counts, otherwise its key is added. -/
def dupGo (seen : List (List (String × JsonVal))) : List Row → ℕ
  | [] => 0
  | r :: rs =>
    if rowKey r ∈ seen then 1 + dupGo seen rs
    else dupGo (rowKey r :: seen) rs

/-- `duplicateRows` from `stats.ts`. -/
def duplicateRows (t : Table) : ℕ := dupGo [] t.rows

/-- First-occurrence deduplication relative to an already-seen set: the
distinct serialised keys, in insertion order. -/
def dedupFirst (seen : List (List (String × JsonVal))) :
    List (List (String × JsonVal)) → List (List (String × JsonVal))
  | [] => []
  | k :: ks =>
    if k ∈ seen then dedupFirst seen ks
    else k :: dedupFirst (k :: seen) ks

/-- C5 counterexample table: the same field-to-value mapping in two
different field orders. -/
def c5PermTable : Table :=
  ⟨["a", "b"],
   [[("a", vnum 1), ("b", vnum 2)],
    [("b", vnum 2), ("a", vnum 1)]]⟩

/-- C5 concrete table `[{a:1},{a:1},{a:2}]`. -/
def c5DupTable : Table :=
  ⟨["a"], [[("a", vnum 1)], [("a", vnum 1)], [("a", vnum 2)]]⟩

/-- C2 witness table: two perfectly correlated numeric columns, three rows. -/
def c2Table : Table :=
  ⟨["x", "y"],
   [[("x", vnum 1), ("y", vnum 1)],
    [("x", vnum 2), ("y", vnum 2)],
    [("x", vnum 3), ("y", vnum 3)]]⟩

/-- The Pearson entry `topCorrelations c2Table 3` returns first:
`r = 2/√4 = 1`. -/
def c2PairP : CorrPair := ⟨"x", "y", ⟨2, 4⟩, .pearson⟩

/-- The Spearman entry for `c2Table` (ranks equal the values here). -/
def c2PairS : CorrPair := ⟨"x", "y", ⟨2, 4⟩, .spearman⟩

/-! ## Categorical associations, imbalance, seasonality, insights -/

/-- `String(v ?? sentinel)`: the category key used by `cramersV`
(sentinel `"∅"`), `etaSquared` and `categoryImbalance` (`"Unknown"`). -/
def catKey (sentinel : String) (v : Value) : String :=
  match v with
  | vnull => sentinel
  | vundef => sentinel
  | v => strfyKey v

/-- Increment a counter in an association list, first-seen insertion order.
Models the object-as-counter idiom `A[k] = (A[k] || 0) + 1`.  (JavaScript
iterates integer-like object keys first in numeric order; iteration order
only feeds order-independent sums and the stable tie order of
`categoryImbalance`'s sort, neither of which any claim depends on.) -/
def bump : List (String × ℕ) → String → List (String × ℕ)
  | [], k => [(k, 1)]
  | (k', c) :: rest, k =>
    if k' = k then (k', c + 1) :: rest else (k', c) :: bump rest k

def tally (ks : List String) : List (String × ℕ) := ks.foldl bump []

/-- Pair counter for the contingency table of `cramersV`. -/
def bumpPair : List ((String × String) × ℕ) → String × String →
    List ((String × String) × ℕ)
  | [], k => [(k, 1)]
  | (k', c) :: rest, k =>
    if k' = k then (k', c + 1) :: rest else (k', c) :: bumpPair rest k

def tallyPairs (ks : List (String × String)) : List ((String × String) × ℕ) :=
  ks.foldl bumpPair []

/-- Per-group count and sum, for `etaSquared`'s `byGroup`. -/
def bumpSum : List (String × (ℕ × ℚ)) → String × ℚ → List (String × (ℕ × ℚ))
  | [], p => [(p.1, (1, p.2))]
  | (k', nc) :: rest, p =>
    if k' = p.1 then (k', (nc.1 + 1, nc.2 + p.2)) :: rest
    else (k', nc) :: bumpSum rest p

def tallySum (ps : List (String × ℚ)) : List (String × (ℕ × ℚ)) :=
  ps.foldl bumpSum []

/-- `cramersV` from `stats.ts`, carrying the radicand of the final
`Math.sqrt(chi2 / (n * k))` exactly (`none` = NaN: fewer than 5 paired
observations, or fewer than 2 levels on either side).  Ranking and
thresholding of Cramér's V happen on the radicand (the square root is
strictly monotone). -/
def cramersV (a b : List Value) : Option ℚ :=
  let n := min a.length b.length
  if n < 5 then none
  else
    let ka := (a.take n).map (catKey "∅")
    let kb := (b.take n).map (catKey "∅")
    let A := tally ka
    let B := tally kb
    let T := tallyPairs (ka.zip kb)
    if A.length < 2 ∨ B.length < 2 then none
    else
      let chi2 := (A.flatMap (fun ra => B.map (fun cb =>
        let obs : ℚ := ((T.lookup (ra.1, cb.1)).getD 0 : ℕ)
        let expc : ℚ := ((ra.2 : ℚ) * (cb.2 : ℚ)) / (n : ℚ)
        if expc = 0 then 0 else (obs - expc) ^ 2 / expc))).sum
      let k := min (A.length - 1) (B.length - 1)
      some (chi2 / ((n : ℚ) * (k : ℚ)))

/-- `etaSquared` from `stats.ts` (`none` = NaN: fewer than 3 valid
(group, value) pairs, or zero total sum of squares).  The numeric series
arrives as `Number(...)` results, NaN (`none`) entries included, filtered in
the loop as the source does. -/
def etaSquared (cat : List Value) (num : List (Option ℚ)) : Option ℚ :=
  let n := min cat.length num.length
  let valid := ((cat.take n).zip (num.take n)).filterMap
    (fun p => p.2.map (fun y => (catKey "∅" p.1, y)))
  if valid.length < 3 then none
  else
    let grandMean := (valid.map Prod.snd).sum / (valid.length : ℚ)
    let groups := tallySum valid
    let sst := (valid.map (fun p => (p.2 - grandMean) ^ 2)).sum
    let ssb := (groups.map (fun g =>
      (g.2.1 : ℚ) * ((g.2.2 / (g.2.1 : ℚ)) - grandMean) ^ 2)).sum
    if sst = 0 then none else some (ssb / sst)

structure Imbalance where
  column : String
  topCategory : String
  topShare : ℚ
deriving DecidableEq, Repr

/-- `categoryImbalance` from `stats.ts`: first string-inferred column, counts
per `String(r?.[c] ?? "Unknown")`, entries sorted descending by count
(stable), top share as a percentage rounded to 1 decimal
(`n = rows.length || 1`). -/
def categoryImbalance (t : Table) : Option Imbalance :=
  match t.columns.filter
      (fun c => decide (inferType (t.rows.map (fun r => getVal r c)) = .string)) with
  | [] => none
  | c :: _ =>
    let ks := t.rows.map (fun r => catKey "Unknown" (getVal r c))
    let entries := (tally ks).insertionSort (fun p q => q.2 ≤ p.2)
    let top := ((entries.head?.map Prod.snd).getD 0 : ℕ)
    let n := max t.rows.length 1
    some ⟨c, (entries.head?.map Prod.fst).getD "Unknown",
      roundTo 1 ((top : ℚ) / (n : ℚ) * 100)⟩

/-- The epoch day of a timestamp (floor division, valid for negative
times). -/
def epochDay (t : ℤ) : ℤ := Int.fdiv t 86400000

/-- `Date#getDay` (0 = Sunday).  The host's local timezone is modelled as
UTC: it is a fixed parameter of the runtime, so determinism is unaffected. -/
def jsGetDay (t : ℤ) : ℤ := Int.emod (epochDay t + 4) 7

/-- `Date#getMonth` (0-based), via the standard civil-from-days conversion
of the proleptic Gregorian calendar; local timezone modelled as UTC as in
`jsGetDay`. -/
def jsGetMonth (t : ℤ) : ℤ :=
  let z := epochDay t + 719468
  let era := Int.fdiv z 146097
  let doe := z - era * 146097
  let yoe := Int.fdiv
    (doe - Int.fdiv doe 1460 + Int.fdiv doe 36524 - Int.fdiv doe 146096) 365
  let doy := doe - (365 * yoe + Int.fdiv yoe 4 - Int.fdiv yoe 100)
  let mp := Int.fdiv (5 * doy + 2) 153
  (if mp < 10 then mp + 3 else mp - 9) - 1

structure WSeason where
  dateCol : String
  numCol : String
  bestWeekday : ℤ
  bestWeekdayAvg : ℚ
deriving DecidableEq, Repr

/-- The `(bucket, value)` pairs a seasonality loop accumulates: rows with a
valid date and a finite number, bucketed by `f` of the timestamp. -/
def seasonPairs (t : Table) (dateCol numCol : String) (f : ℤ → ℤ) :
    List (ℤ × ℚ) :=
  t.rows.filterMap (fun r =>
    match newDateOf (getVal r dateCol), jsNumber (getVal r numCol) with
    | some d, some v => some (f d, v)
    | _, _ => none)

/-- Per-bucket average (`counts[i] ? sums[i]/counts[i] : 0`). -/
def bucketAvg (pairs : List (ℤ × ℚ)) (w : ℤ) : ℚ :=
  let vs := (pairs.filter (fun p => decide (p.1 = w))).map Prod.snd
  if vs.length = 0 then 0 else vs.sum / (vs.length : ℚ)

/-- `avgs.reduce((m,_,i) => avgs[i] > avgs[m] ? i : m, 0)`: index of the
earliest strict maximum among buckets `0..k-1`. -/
def argmaxBucket (avg : ℤ → ℚ) (k : ℕ) : ℕ :=
  (List.range k).foldl
    (fun (m i : ℕ) => if avg (m : ℤ) < avg (i : ℤ) then i else m) 0

/-- `avgs.reduce((m,_,i) => avgs[i] < avgs[m] ? i : m, 0)`. -/
def argminBucket (avg : ℤ → ℚ) (k : ℕ) : ℕ :=
  (List.range k).foldl
    (fun (m i : ℕ) => if avg (i : ℤ) < avg (m : ℤ) then i else m) 0

/-- `weekdaySeasonality` from `stats.ts`. -/
def weekdaySeasonality (t : Table) : Option WSeason :=
  match findCol t .date, findCol t .number with
  | some dateCol, some numCol =>
    let pairs := seasonPairs t dateCol numCol jsGetDay
    let maxIdx := argmaxBucket (bucketAvg pairs) 7
    some ⟨dateCol, numCol, (maxIdx : ℤ), bucketAvg pairs (maxIdx : ℤ)⟩
  | _, _ => none

structure MSeason where
  dateCol : String
  numCol : String
  peakMonth : ℤ
  troughMonth : ℤ
  strong : Bool
deriving DecidableEq, Repr

/-- `monthSeasonality` from `stats.ts`: 12 monthly buckets, earliest strict
max and min, `strong` iff the amplitude over the mean of the *nonempty*
buckets' averages reaches `0.3` (`mean ? amplitude / mean >= 0.3 : false`). -/
def monthSeasonality (t : Table) : Option MSeason :=
  match findCol t .date, findCol t .number with
  | some dateCol, some numCol =>
    let pairs := seasonPairs t dateCol numCol jsGetMonth
    let maxIdx := argmaxBucket (bucketAvg pairs) 12
    let minIdx := argminBucket (bucketAvg pairs) 12
    let amplitude := bucketAvg pairs (maxIdx : ℤ) - bucketAvg pairs (minIdx : ℤ)
    let nz := ((List.range 12).filter
      (fun m => decide (pairs.countP (fun p => decide (p.1 = (m : ℤ))) ≠ 0))).length
    let mean := ((List.range 12).map (fun m => bucketAvg pairs (m : ℤ))).sum /
      ((max nz 1 : ℕ) : ℚ)
    let strong := if mean = 0 then false else decide (3/10 ≤ amplitude / mean)
    some ⟨dateCol, numCol, (maxIdx : ℤ), (minIdx : ℤ), strong⟩
  | _, _ => none

/-- One synthesiser bullet, kept as a tagged record of exactly the data the
source's template string interpolates.  The formatted text is a fixed
deterministic rendering of this record; the `Set`-based dedup of the bullet
strings is modelled as first-occurrence dedup of the records. -/
inductive Bullet where
  | missingB (name : String) (pct : ℤ)
  | outliersIqrB (name : String) (k : ℕ)
  | outliersZB (name : String) (k : ℕ)
  | corrB (kind : CorrKind) (a b : String) (r : CorrRep)
  | trendB (numCol dateCol : String) (dir : TrendDir) (r2 : ℚ)
  | shiftB (atIndex : ℤ) (improvementPct : ℤ)
  | anomaliesB (k : ℕ)
  | dupB (k : ℕ)
  | imbalanceB (column topCategory : String) (share : ℚ)
  | wSeasonB (numCol : String) (weekday : ℤ)
  | mSeasonB (peak trough : ℤ)
  | cramersB (a b : String) (v2 : ℚ)
  | etaB (cat num : String) (eta2 : ℚ)
deriving DecidableEq, Repr

/-- First-occurrence dedup of bullets: `Array.from(new Set(bullets))`. -/
def dedupBullets : List Bullet → List Bullet :=
  let go : List Bullet → List Bullet → List Bullet :=
    fun seen l => (l.foldl (fun acc b =>
      if b ∈ acc ∨ b ∈ seen then acc else acc ++ [b]) [])
  go []

/-- The deterministic narrative of `buildNarrative`, as its data: column
count, count of columns with `missingPct ≥ 10`, count of numeric columns
with any outliers, and whether any bullets exist. -/
structure Narrative where
  cols : ℕ
  missingCols : ℕ
  outlierCols : ℕ
  hasFindings : Bool
deriving DecidableEq, Repr

def buildNarrative (profile : List ColumnProfile) (bulletCount : ℕ) : Narrative :=
  ⟨profile.length,
   (profile.filter (fun c => decide (10 ≤ c.missingPct))).length,
   (profile.filter (fun c =>
     decide (((c.numeric.map (·.outliersIqr)).getD 0) +
       ((c.numeric.map (·.outliersZ)).getD 0) ≠ 0))).length,
   bulletCount ≠ 0⟩

/-- The full return value of `generateInsightsAll` (`insights.ts`). -/
structure Insights where
  profile : List ColumnProfile
  bullets : List Bullet
  narrative : Narrative
  corrs : List CorrPair
  catCat : List (String × String × ℚ)
  catNum : List (String × String × ℚ)
  trend : Option TrendResult
  wSeason : Option WSeason
  mSeason : Option MSeason
  dup : ℕ
  imb : Option Imbalance
deriving DecidableEq

/-- `|r| ≥ 0.7` on the exact representation: `num² ≥ 0.49 · den2`. -/
def absGe07 (r : CorrRep) : Prop := 49 / 100 * r.den2 ≤ r.num ^ 2

instance : DecidablePred absGe07 := fun r => by
  unfold absGe07
  infer_instance

/-- `generateInsightsAll`'s `cats`: the string-inferred columns. -/
def catsOf (t : Table) : List String :=
  t.columns.filter
    (fun c => decide (inferType (t.rows.map (fun r => getVal r c)) = .string))

/-- `generateInsightsAll`'s `nums`: the number-inferred columns. -/
def numColsIns (t : Table) : List String :=
  t.columns.filter
    (fun c => decide (inferType (t.rows.map (fun r => getVal r c)) = .number))

/-- The `catCat` array: Cramér's V (radicand) over every string-column pair,
finite entries only, sorted descending (stable, sort key through the
radicand: the square root is strictly monotone). -/
def catCatOf (t : Table) : List (String × String × ℚ) :=
  ((catsOf t).enum.flatMap (fun p =>
    ((catsOf t).drop (p.1 + 1)).filterMap (fun b =>
      (cramersV (t.rows.map (fun r => getValOrNull r p.2))
        (t.rows.map (fun r => getValOrNull r b))).map
        (fun v => (p.2, b, v))))).insertionSort
    (fun p q => q.2.2 ≤ p.2.2)

/-- The `catNum` array: η² for every (string, number) column pair, finite
entries only, sorted descending (stable). -/
def catNumOf (t : Table) : List (String × String × ℚ) :=
  ((catsOf t).flatMap (fun c =>
    (numColsIns t).filterMap (fun n =>
      (etaSquared (t.rows.map (fun r => getValOrNull r c))
        (t.rows.map (fun r => jsNumber (getVal r n)))).map
        (fun e2 => (c, n, e2))))).insertionSort
    (fun p q => q.2.2 ≤ p.2.2)

/-- The per-column bullets: missingness ≥ 10, then the truthy outlier
counts. -/
def colBullets (profile : List ColumnProfile) : List Bullet :=
  profile.flatMap (fun col =>
    (if 10 ≤ col.missingPct then [Bullet.missingB col.name col.missingPct] else []) ++
    (match col.numeric with
      | some s =>
        (if s.outliersIqr ≠ 0 then [Bullet.outliersIqrB col.name s.outliersIqr] else []) ++
        (if s.outliersZ ≠ 0 then [Bullet.outliersZB col.name s.outliersZ] else [])
      | none => []))

/-- Correlation bullets: `|r| ≥ 0.7`, top 3. -/
def corrBullets (corrs : List CorrPair) : List Bullet :=
  ((corrs.filter (fun c => decide (absGe07 c.r))).take 3).map
    (fun c => Bullet.corrB c.kind c.a c.b c.r)

/-- Trend bullets: non-flat trend, then changepoint
(`Math.round(improvement*100)`) and anomaly sub-bullets. -/
def trendBullets : Option TrendResult → List Bullet
  | some tr =>
    if tr.dir ≠ TrendDir.flat then
      [Bullet.trendB tr.numCol tr.dateCol tr.dir tr.r2] ++
      (match tr.changepoint with
        | some cp => [Bullet.shiftB cp.atIndex (round (cp.improvement * 100))]
        | none => []) ++
      (if tr.anomalies ≠ 0 then [Bullet.anomaliesB tr.anomalies] else [])
    else []
  | none => []

def dupBullets (dup : ℕ) : List Bullet :=
  if 0 < dup then [Bullet.dupB dup] else []

def imbBullets : Option Imbalance → List Bullet
  | some im => [Bullet.imbalanceB im.column im.topCategory im.topShare]
  | none => []

def wBullets : Option WSeason → List Bullet
  | some w => [Bullet.wSeasonB w.numCol w.bestWeekday]
  | none => []

def mBullets : Option MSeason → List Bullet
  | some m => if m.strong then [Bullet.mSeasonB m.peakMonth m.troughMonth] else []
  | none => []

/-- Cramér's V bullets: `V ≥ 0.6` i.e. radicand `≥ 0.36`, top 2. -/
def vBullets (catCat : List (String × String × ℚ)) : List Bullet :=
  ((catCat.filter (fun x => decide ((36 : ℚ)/100 ≤ x.2.2))).take 2).map
    (fun x => Bullet.cramersB x.1 x.2.1 x.2.2)

/-- η² bullets: `eta2 ≥ 0.25`, top 2. -/
def etaBullets (catNum : List (String × String × ℚ)) : List Bullet :=
  ((catNum.filter (fun x => decide ((1 : ℚ)/4 ≤ x.2.2))).take 2).map
    (fun x => Bullet.etaB x.1 x.2.1 x.2.2)

/-- The deduplicated bullet list of `generateInsightsAll`, in the source's
push order. -/
def allBullets (t : Table) : List Bullet :=
  dedupBullets (colBullets (profileTable t) ++ corrBullets (topCorrelations t 5) ++
    trendBullets (firstDateTrend t) ++ dupBullets (duplicateRows t) ++
    imbBullets (categoryImbalance t) ++ wBullets (weekdaySeasonality t) ++
    mBullets (monthSeasonality t) ++ vBullets (catCatOf t) ++
    etaBullets (catNumOf t))

/-- `generateInsightsAll` from `insights.ts`, with bullets as tagged records
(see `Bullet`) and Cramér's V compared and sorted through its radicand. -/
def generateInsightsAll (t : Table) : Insights :=
  ⟨profileTable t, allBullets t,
   buildNarrative (profileTable t) (allBullets t).length,
   topCorrelations t 5, (catCatOf t).take 5, (catNumOf t).take 5,
   firstDateTrend t, weekdaySeasonality t, monthSeasonality t,
   duplicateRows t, categoryImbalance t⟩

/-- Arithmetic core of the C1 argmax/tie-break characterisation. -/
theorem inferType_characterisation (vs : List Value) :
    (inferType vs = .unknown ↔
      numCount vs = 0 ∧ dateCount vs = 0 ∧ strCount vs = 0) ∧
    (inferType vs = .number ↔
      0 < numCount vs + dateCount vs + strCount vs ∧
      dateCount vs ≤ numCount vs ∧ strCount vs ≤ numCount vs) ∧
    (inferType vs = .date ↔
      numCount vs < dateCount vs ∧ strCount vs ≤ dateCount vs) ∧
    (inferType vs = .string ↔
      numCount vs < strCount vs ∧ dateCount vs < strCount vs) := by
  unfold inferType
  set n := numCount vs with hn
  set s := strCount vs with hs
  set d := dateCount vs with hd
  simp only []
  split_ifs with h0 h1 h2 <;>
    refine ⟨?_, ?_, ?_, ?_⟩ <;> simp_all <;> omega

/-- C1: `inferType` returns the category (number/date/string) with the highest
count of non-missing values, ties broken by the priority
number > date > string (equal numeric and date counts give `number`; a date
count that ties the string count and exceeds the numeric count gives `date`);
in particular a column with one numeric-looking and one date-looking string
infers as `number`, and an all-missing column infers as `unknown`. -/
theorem C1_inferType_argmax_priority :
    (∀ vs : List Value,
      (inferType vs = .unknown ↔
        numCount vs = 0 ∧ dateCount vs = 0 ∧ strCount vs = 0) ∧
      (inferType vs = .number ↔
        0 < numCount vs + dateCount vs + strCount vs ∧
        dateCount vs ≤ numCount vs ∧ strCount vs ≤ numCount vs) ∧
      (inferType vs = .date ↔
        numCount vs < dateCount vs ∧ strCount vs ≤ dateCount vs) ∧
      (inferType vs = .string ↔
        numCount vs < strCount vs ∧ dateCount vs < strCount vs)) ∧
    inferType [numLikeStr, dateLikeStr] = .number ∧
    inferType [Value.vnull, Value.vnull] = .unknown :=
  ⟨inferType_characterisation, by decide, by decide⟩

set_option maxRecDepth 4000 in
/-- C7 counterexample: two cells where `coerceValue` leaves the claim's rule
list.  `hugeNumeralStr` has a trimmed form matching `^-?\d+(\.\d+)?$`, yet
the result is the original string, not a parsed number, because the parse is
non-finite (`return Number.isFinite(n) ? n : v`).  A `Date` cell reaches the
final fall-through and comes back as the date itself, not as a string. -/
theorem C7_cex_coerceValue_not_ruleList :
    (hugeNumeralStr.numReTrim = true ∧
      coerceValue 0 (vstr hugeNumeralStr) = vstr hugeNumeralStr ∧
      isNumV (coerceValue 0 (vstr hugeNumeralStr)) = false) ∧
    (coerceValue 0 (vdate 0 0) = vdate 0 0 ∧
      isStrV (coerceValue 0 (vdate 0 0)) = false) := by
  have hne : hugeNumeralStr.val ≠ "" := by simp [hugeNumeralStr, String.ext_iff]
  have hc : coerceValue 0 (vstr hugeNumeralStr) = vstr hugeNumeralStr := by
    simp [coerceValue, hne, hugeNumeralStr]
  exact ⟨⟨rfl, hc, by rw [hc]; rfl⟩, rfl, rfl⟩

/-- C7 (amended): `coerceValue` applies its rules in order for every cell:
empty string, `null` or `undefined` yield `null`; a finite number yields
itself; a string whose trimmed form matches `^-?\d+(\.\d+)?$` yields the
parsed number when that parse is finite and otherwise the original string;
otherwise a trimmed string parsing to a valid timestamp yields a (fresh)
date; any remaining string yields the original string; and any remaining
non-string value (such as a `Date` cell) is returned unchanged.  It is a
total function, so it never fails or throws. -/
theorem C7_coerceValue_rules :
    (∀ fresh, coerceValue fresh vnull = vnull ∧ coerceValue fresh vundef = vnull) ∧
    (∀ fresh s, s.val = "" → coerceValue fresh (vstr s) = vnull) ∧
    (∀ fresh x, coerceValue fresh (vnum x) = vnum x) ∧
    (∀ fresh s n, s.numReTrim = true → s.numParseTrim = some n → s.val ≠ "" →
        coerceValue fresh (vstr s) = vnum n) ∧
    (∀ fresh s, s.numReTrim = true → s.numParseTrim = none → s.val ≠ "" →
        coerceValue fresh (vstr s) = vstr s) ∧
    (∀ fresh s t, s.numReTrim = false → s.dateParseTrim = some t → s.val ≠ "" →
        coerceValue fresh (vstr s) = vdate t fresh) ∧
    (∀ fresh s, s.numReTrim = false → s.dateParseTrim = none → s.val ≠ "" →
        coerceValue fresh (vstr s) = vstr s) ∧
    (∀ fresh t oid, coerceValue fresh (vdate t oid) = vdate t oid) := by
  refine ⟨fun _ => ⟨rfl, rfl⟩, ?_, fun _ _ => rfl, ?_, ?_, ?_, ?_, fun _ _ _ => rfl⟩ <;>
    intros <;> simp_all [coerceValue]

/-- C7 witness: the amended rules evaluated at concrete cells — `"1"` parses
to the number `1`, and `"2020-01-05"` becomes a date with the timestamp
`Date.parse` produced. -/
theorem C7_witness_coerceValue_rules :
    coerceValue 7 (vstr numStrJs) = vnum 1 ∧
    coerceValue 3 (vstr dateStrJs) = vdate 1578182400000 3 :=
  ⟨C7_coerceValue_rules.2.2.2.1 7 numStrJs 1 rfl rfl (by decide),
   C7_coerceValue_rules.2.2.2.2.2.1 3 dateStrJs 1578182400000 rfl rfl (by decide)⟩

/-- C10: `coerceTable` keeps the column list and the row count, rebuilds every
row with exactly the table's columns as its keys in column order (so keys not
listed in `columns` are dropped), maps a key absent from the input row to
`null`, and — the embedding being purely functional — leaves the input table
and its rows unmodified (the output is a fresh structure). -/
theorem C10_coerceTable_shape (t : Table) :
    (coerceTable t).columns = t.columns ∧
    (coerceTable t).rows.length = t.rows.length ∧
    ∀ ri r r', t.rows[ri]? = some r → (coerceTable t).rows[ri]? = some r' →
      r'.map Prod.fst = t.columns ∧
      ∀ ci k, t.columns[ci]? = some k →
        r'[ci]? = some (k, coerceValue (ri * t.columns.length + ci) (getVal r k)) ∧
        (getVal r k = vundef → r'[ci]? = some (k, vnull)) := by
  refine ⟨rfl, by simp [coerceTable], ?_⟩
  intro ri r r' hr h
  simp only [coerceTable, List.getElem?_map, List.getElem?_enum, hr,
    Option.map_some'] at h
  obtain rfl := Option.some.inj h
  constructor
  · rw [List.map_map]
    exact List.enum_map_snd t.columns
  · intro ci k hk
    have hcell : (t.columns.enum.map fun cp =>
        (cp.2, coerceValue (ri * t.columns.length + cp.1) (getVal r cp.2)))[ci]? =
        some (k, coerceValue (ri * t.columns.length + ci) (getVal r k)) := by
      simp [List.getElem?_map, List.getElem?_enum, hk]
    refine ⟨hcell, fun habs => ?_⟩
    rw [hcell, habs]
    rfl

/-- C10 witness: the shape theorem applied to a concrete one-row table whose
row has an extra key `"z"` (dropped) and lacks the column `"b"` (mapped to
`null`). -/
theorem C10_witness_coerceTable_shape :
    List.map Prod.fst [(("a" : String), vnum 2), ("b", vnull)] = ["a", "b"] ∧
    ([(("a" : String), vnum 2), ("b", vnull)] : Row)[1]? = some ("b", vnull) := by
  have h := (C10_coerceTable_shape ⟨["a", "b"], [[("a", vnum 2), ("z", vnum 9)]]⟩).2.2
      0 [("a", vnum 2), ("z", vnum 9)] [("a", vnum 2), ("b", vnull)] rfl (by decide)
  exact ⟨h.1, (h.2 1 "b" rfl).2 (by decide)⟩

/-! ## C4: the distinct count -/

theorem svzEq_iff_key {a b : Value} : svzEq a b ↔ svzKey a = svzKey b := by
  cases a <;> cases b <;> simp [svzEq, svzKey]

/-- Deduplicating the hashing keys counts exactly the SameValueZero
equivalence classes of the values. -/
theorem map_svzKey_dedup (l : List Value) :
    (l.map svzKey).dedup = (l.pwFilter fun a b => ¬ svzEq a b).map svzKey := by
  induction l with
  | nil => rfl
  | cons a l ih =>
    by_cases h : ∀ b ∈ l.pwFilter fun a b => ¬ svzEq a b, ¬ svzEq a b
    · rw [List.map_cons, List.pwFilter_cons_of_pos h, List.map_cons]
      show List.pwFilter _ _ = _
      rw [List.pwFilter_cons_of_pos]
      · rw [show (List.pwFilter (· ≠ ·) (List.map svzKey l) : List SvzKey) =
          (List.map svzKey l).dedup from rfl, ih]
      · rw [show (List.pwFilter (· ≠ ·) (List.map svzKey l) : List SvzKey) =
          (List.map svzKey l).dedup from rfl, ih]
        intro b hb
        obtain ⟨v, hv, rfl⟩ := List.mem_map.mp hb
        exact fun hk => h v hv (svzEq_iff_key.mpr hk)
    · rw [List.map_cons, List.pwFilter_cons_of_neg h]
      show List.pwFilter _ _ = _
      rw [List.pwFilter_cons_of_neg]
      · rw [show (List.pwFilter (· ≠ ·) (List.map svzKey l) : List SvzKey) =
          (List.map svzKey l).dedup from rfl, ih]
      · rw [show (List.pwFilter (· ≠ ·) (List.map svzKey l) : List SvzKey) =
          (List.map svzKey l).dedup from rfl, ih]
        intro hall
        apply h
        intro b hb he
        exact hall (svzKey b) (List.mem_map_of_mem svzKey hb) (svzEq_iff_key.mp he)

/-- C4 counterexample: a column holding two `Date` objects with the same
timestamp (`new Date(0)` twice).  `profileTable`'s `new Set(...)` compares
the objects by reference and reports a distinct count of `2`, while the
number of distinct *stringified* non-missing values — what the claim asserts
is reported — is `1`. -/
theorem C4_cex_distinct_dates_by_reference :
    (profileColumn ⟨["d"], [[("d", vdate 0 0)], [("d", vdate 0 1)]]⟩ "d").distinct = 2 ∧
    distinctStringified
      (colValues ⟨["d"], [[("d", vdate 0 0)], [("d", vdate 0 1)]]⟩ "d") = 1 := by
  constructor <;> decide

/-- C4 (amended): the distinct count reported by `profileTable` equals the
number of distinct non-missing values of the column under SameValueZero
equality, which compares numbers and strings by value but `Date` objects by
reference — so numerically equal primitive representations count once only
when coercion has normalised them to the same primitive, and two `Date`
objects with the same timestamp count twice, not once. -/
theorem C4_distinct_is_sameValueZero :
    (∀ t c, (profileColumn t c).distinct =
      countDistinctBy svzEq
        ((colValues t c).filter (fun v => decide (v ≠ vnull)))) ∧
    (profileColumn ⟨["d"], [[("d", vdate 0 0)], [("d", vdate 0 1)]]⟩ "d").distinct = 2 := by
  refine ⟨fun t c => ?_, by decide⟩
  show ((((colValues t c).filter _).map svzKey).dedup).length = _
  rw [map_svzKey_dedup, List.length_map]
  rfl

/-! ## C9: quantile ordering and profile invariants -/

theorem sorted_getD_mono {l : List ℚ} (hs : l.Sorted (· ≤ ·)) {i j : ℕ}
    (hij : i ≤ j) (hj : j < l.length) : l.getD i 0 ≤ l.getD j 0 := by
  have hi : i < l.length := Nat.lt_of_le_of_lt hij hj
  rw [List.getD_eq_getElem?_getD, List.getD_eq_getElem?_getD,
    List.getElem?_eq_getElem hi, List.getElem?_eq_getElem hj]
  simpa using hs.rel_get_of_le (a := ⟨i, hi⟩) (b := ⟨j, hj⟩) hij

/-- The interpolated quantile is monotone in `q` on a sorted list. -/
theorem quantile_mono {l : List ℚ} (hs : l.Sorted (· ≤ ·)) (hne : l ≠ [])
    {p q : ℚ} (hp : 0 ≤ p) (hpq : p ≤ q) (hq : q ≤ 1) :
    (quantile l p).getD 0 ≤ (quantile l q).getD 0 := by
  have hlen : 1 ≤ l.length := List.length_pos.mpr hne
  have hmQ : (1 : ℚ) ≤ (l.length : ℚ) := by exact_mod_cast hlen
  have hm1 : (0 : ℚ) ≤ (l.length : ℚ) - 1 := by linarith
  have hq0 : 0 ≤ q := le_trans hp hpq
  set pp : ℚ := ((l.length : ℚ) - 1) * p with hpp_def
  set pq : ℚ := ((l.length : ℚ) - 1) * q with hpq_def
  have hpp0 : 0 ≤ pp := mul_nonneg hm1 hp
  have hpq0 : 0 ≤ pq := mul_nonneg hm1 hq0
  have hple : pp ≤ pq := mul_le_mul_of_nonneg_left hpq hm1
  have hppm : pp ≤ (l.length : ℚ) - 1 := by
    calc pp ≤ ((l.length : ℚ) - 1) * 1 :=
      mul_le_mul_of_nonneg_left (le_trans hpq hq) hm1
    _ = (l.length : ℚ) - 1 := mul_one _
  have hpqm : pq ≤ (l.length : ℚ) - 1 := by
    calc pq ≤ ((l.length : ℚ) - 1) * 1 := mul_le_mul_of_nonneg_left hq hm1
    _ = (l.length : ℚ) - 1 := mul_one _
  set bp : ℕ := (⌊pp⌋).toNat with hbp_def
  set bq : ℕ := (⌊pq⌋).toNat with hbq_def
  have hbp_cast : ((bp : ℤ) : ℚ) = (⌊pp⌋ : ℚ) := by
    rw [hbp_def, Int.toNat_of_nonneg (Int.floor_nonneg.mpr hpp0)]
  have hbq_cast : ((bq : ℤ) : ℚ) = (⌊pq⌋ : ℚ) := by
    rw [hbq_def, Int.toNat_of_nonneg (Int.floor_nonneg.mpr hpq0)]
  have hbp_le : (bp : ℚ) ≤ pp := by
    have := Int.floor_le pp
    push_cast at hbp_cast ⊢
    linarith [hbp_cast ▸ this]
  have hbq_le : (bq : ℚ) ≤ pq := by
    have := Int.floor_le pq
    push_cast at hbq_cast ⊢
    linarith [hbq_cast ▸ this]
  have hpp_lt : pp < (bp : ℚ) + 1 := by
    have := Int.lt_floor_add_one pp
    push_cast at hbp_cast ⊢
    linarith [hbp_cast ▸ this]
  have hpq_lt : pq < (bq : ℚ) + 1 := by
    have := Int.lt_floor_add_one pq
    push_cast at hbq_cast ⊢
    linarith [hbq_cast ▸ this]
  have hbp_lt_m : bp < l.length := by
    have h1 : (bp : ℚ) ≤ (l.length : ℚ) - 1 := le_trans hbp_le hppm
    have h2 : (bp : ℚ) < (l.length : ℚ) := by linarith
    exact_mod_cast h2
  have hbq_lt_m : bq < l.length := by
    have h1 : (bq : ℚ) ≤ (l.length : ℚ) - 1 := le_trans hbq_le hpqm
    have h2 : (bq : ℚ) < (l.length : ℚ) := by linarith
    exact_mod_cast h2
  have hbpbq : bp ≤ bq := by
    have hf : ⌊pp⌋ ≤ ⌊pq⌋ := Int.floor_le_floor hple
    exact Int.toNat_le_toNat hf
  have hempty : l.isEmpty = false := by
    cases l with
    | nil => exact absurd rfl hne
    | cons a l => rfl
  -- `getD bq 0 ≤ (quantile l q).getD 0` (the q-value sits above its base)
  have hq_lower : l.getD bq 0 ≤ (quantile l q).getD 0 := by
    unfold quantile
    rw [hempty]
    simp only [Bool.false_eq_true, if_false, ← hpq_def, ← hbq_def]
    cases hsucc : l[bq + 1]? with
    | none => simp
    | some nxt =>
      have hsl : bq + 1 < l.length := (List.getElem?_eq_some.mp hsucc).1
      have hnxt : nxt = l.getD (bq + 1) 0 := by
        rw [List.getD_eq_getElem?_getD, hsucc]; rfl
      have hgap : l.getD bq 0 ≤ l.getD (bq + 1) 0 :=
        sorted_getD_mono hs (Nat.le_succ bq) hsl
      have hrest : 0 ≤ pq - (bq : ℚ) := by linarith
      simp only [Option.getD_some]
      nlinarith [hgap, hrest, hnxt]
  rcases Nat.lt_or_ge bp bq with hlt | hge
  · -- different bases: value(p) ≤ l[bp+1] ≤ l[bq] ≤ value(q)
    have hsucc_lt : bp + 1 < l.length := Nat.lt_of_le_of_lt hlt hbq_lt_m
    have hp_upper : (quantile l p).getD 0 ≤ l.getD (bp + 1) 0 := by
      unfold quantile
      rw [hempty]
      simp only [Bool.false_eq_true, if_false, ← hpp_def, ← hbp_def]
      rw [List.getElem?_eq_getElem hsucc_lt]
      have hval : l[bp + 1] = l.getD (bp + 1) 0 := by
        rw [List.getD_eq_getElem?_getD, List.getElem?_eq_getElem hsucc_lt]; rfl
      have hgap : l.getD bp 0 ≤ l.getD (bp + 1) 0 :=
        sorted_getD_mono hs (Nat.le_succ bp) hsucc_lt
      have hrest1 : pp - (bp : ℚ) < 1 := by linarith
      have hrest0 : 0 ≤ pp - (bp : ℚ) := by linarith
      simp only [Option.getD_some]
      nlinarith [hgap, hrest1, hrest0, hval]
    have hmid : l.getD (bp + 1) 0 ≤ l.getD bq 0 :=
      sorted_getD_mono hs hlt hbq_lt_m
    exact le_trans hp_upper (le_trans hmid hq_lower)
  · -- same base
    have hbeq : bp = bq := Nat.le_antisymm hbpbq hge
    unfold quantile
    rw [hempty]
    simp only [Bool.false_eq_true, if_false, ← hpp_def, ← hpq_def, ← hbp_def, ← hbq_def]
    rw [← hbeq]
    cases hsucc : l[bp + 1]? with
    | none => simp
    | some nxt =>
      have hsl : bp + 1 < l.length := (List.getElem?_eq_some.mp hsucc).1
      have hnxt : nxt = l.getD (bp + 1) 0 := by
        rw [List.getD_eq_getElem?_getD, hsucc]; rfl
      have hgap : l.getD bp 0 ≤ l.getD (bp + 1) 0 :=
        sorted_getD_mono hs (Nat.le_succ bp) hsl
      simp only [Option.getD_some]
      nlinarith [hgap, hple]

theorem quantile_zero {l : List ℚ} (hne : l ≠ []) :
    quantile l 0 = some (l.headD 0) := by
  have hempty : l.isEmpty = false := by
    cases l with
    | nil => exact absurd rfl hne
    | cons a l => rfl
  unfold quantile
  rw [hempty]
  simp only [Bool.false_eq_true, if_false, mul_zero]
  have hbase : ((⌊(0 : ℚ)⌋).toNat : ℕ) = 0 := by norm_num
  rw [hbase]
  have hhead : l.getD 0 0 = l.headD 0 := by
    cases l with
    | nil => rfl
    | cons a l => rfl
  cases hsucc : l[0 + 1]? with
  | none => rw [hhead]
  | some nxt =>
    rw [hhead]
    norm_num

theorem quantile_one {l : List ℚ} (hne : l ≠ []) :
    quantile l 1 = some (l.getLastD 0) := by
  have hlen : 1 ≤ l.length := List.length_pos.mpr hne
  have hempty : l.isEmpty = false := by
    cases l with
    | nil => exact absurd rfl hne
    | cons a l => rfl
  unfold quantile
  rw [hempty]
  simp only [Bool.false_eq_true, if_false, mul_one]
  have hfloor : ⌊(l.length : ℚ) - 1⌋ = (l.length : ℤ) - 1 := by
    rw [show ((l.length : ℚ) - 1) = (((l.length : ℤ) - 1 : ℤ) : ℚ) by push_cast; ring]
    exact Int.floor_intCast _
  have hbase : (⌊(l.length : ℚ) - 1⌋).toNat = l.length - 1 := by
    rw [hfloor]
    omega
  rw [hbase]
  have hnone : l[(l.length - 1) + 1]? = none := by
    apply List.getElem?_eq_none
    omega
  rw [hnone]
  have hlast : l.getD (l.length - 1) 0 = l.getLastD 0 := by
    rw [List.getD_eq_getElem?_getD, ← List.getLast?_eq_getElem?]
    cases l with
    | nil => rfl
    | cons a l => simp [List.getLastD_eq_getLast?]
  rw [hlast]

theorem numericSummaryOf_fields (vs : List Value)
    (h : (vs.filterMap jsNumber).length ≠ 0) :
    (numericSummaryOf vs).n = (vs.filterMap jsNumber).length ∧
    (numericSummaryOf vs).min =
      ((vs.filterMap jsNumber).insertionSort (· ≤ ·)).headD 0 ∧
    (numericSummaryOf vs).q1 =
      (quantile ((vs.filterMap jsNumber).insertionSort (· ≤ ·)) (1/4)).getD 0 ∧
    (numericSummaryOf vs).median =
      (quantile ((vs.filterMap jsNumber).insertionSort (· ≤ ·)) (1/2)).getD 0 ∧
    (numericSummaryOf vs).q3 =
      (quantile ((vs.filterMap jsNumber).insertionSort (· ≤ ·)) (3/4)).getD 0 ∧
    (numericSummaryOf vs).max =
      ((vs.filterMap jsNumber).insertionSort (· ≤ ·)).getLastD 0 ∧
    (numericSummaryOf vs).iqr = (numericSummaryOf vs).q3 - (numericSummaryOf vs).q1 := by
  refine ⟨rfl, ?_, ?_, ?_, ?_, ?_, rfl⟩ <;> simp [numericSummaryOf, h]

/-- C9: every `NumericSummary` produced by `profileTable` for a column with
at least one value converting to a finite number satisfies
`min ≤ q1 ≤ median ≤ q3 ≤ max`, `iqr = q3 - q1 ≥ 0` and `n ≥ 1` (the
quartiles all come from the same interpolated quantile over the same sorted
list), and every profile's `missingPct` lies between 0 and 100. -/
theorem C9_profile_invariants :
    (∀ t c s, (profileColumn t c).numeric = some s →
      (∃ v ∈ colValues t c, (jsNumber v).isSome = true) →
      1 ≤ s.n ∧ s.min ≤ s.q1 ∧ s.q1 ≤ s.median ∧ s.median ≤ s.q3 ∧
        s.q3 ≤ s.max ∧ s.iqr = s.q3 - s.q1 ∧ 0 ≤ s.iqr) ∧
    (∀ t p, p ∈ profileTable t → 0 ≤ p.missingPct ∧ p.missingPct ≤ 100) := by
  constructor
  · intro t c s hs hex
    have hsome : (colValues t c).filterMap jsNumber ≠ [] := by
      obtain ⟨v, hv, hsv⟩ := hex
      obtain ⟨y, hy⟩ := Option.isSome_iff_exists.mp hsv
      exact List.ne_nil_of_mem (List.mem_filterMap.mpr ⟨v, hv, hy⟩)
    have hnum : inferType (colValues t c) = .number ∧
        s = numericSummaryOf (colValues t c) := by
      by_cases hty : inferType (colValues t c) = .number
      · refine ⟨hty, ?_⟩
        have hval : (profileColumn t c).numeric =
            some (numericSummaryOf (colValues t c)) := by
          simp [profileColumn, hty]
        rw [hval] at hs
        exact (Option.some.inj hs).symm
      · exfalso
        have hval : (profileColumn t c).numeric = none := by
          simp [profileColumn, hty]
        rw [hval] at hs
        exact Option.noConfusion hs
    obtain ⟨hty, rfl⟩ := hnum
    have hnlen : ((colValues t c).filterMap jsNumber).length ≠ 0 :=
      fun h => hsome (List.eq_nil_of_length_eq_zero h)
    obtain ⟨hn, hmn, hq1, hmed, hq3, hmx, hiqr⟩ :=
      numericSummaryOf_fields (colValues t c) hnlen
    have hslen : (((colValues t c).filterMap jsNumber).insertionSort (· ≤ ·)).length =
        ((colValues t c).filterMap jsNumber).length :=
      (List.perm_insertionSort _ _).length_eq
    have hsne : ((colValues t c).filterMap jsNumber).insertionSort (· ≤ ·) ≠ [] := by
      intro h
      apply hnlen
      rw [← hslen, h]
      rfl
    have hsort : (((colValues t c).filterMap jsNumber).insertionSort (· ≤ ·)).Sorted (· ≤ ·) :=
      List.sorted_insertionSort _ _
    have h0 : (quantile (((colValues t c).filterMap jsNumber).insertionSort (· ≤ ·)) 0).getD 0 =
        (((colValues t c).filterMap jsNumber).insertionSort (· ≤ ·)).headD 0 := by
      rw [quantile_zero hsne]; rfl
    have h1 : (quantile (((colValues t c).filterMap jsNumber).insertionSort (· ≤ ·)) 1).getD 0 =
        (((colValues t c).filterMap jsNumber).insertionSort (· ≤ ·)).getLastD 0 := by
      rw [quantile_one hsne]; rfl
    refine ⟨?_, ?_, ?_, ?_, ?_, hiqr, ?_⟩
    · rw [hn]; omega
    · rw [hmn, hq1, ← h0]
      exact quantile_mono hsort hsne (le_refl 0) (by norm_num) (by norm_num)
    · rw [hq1, hmed]
      exact quantile_mono hsort hsne (by norm_num) (by norm_num) (by norm_num)
    · rw [hmed, hq3]
      exact quantile_mono hsort hsne (by norm_num) (by norm_num) (by norm_num)
    · rw [hq3, hmx, ← h1]
      exact quantile_mono hsort hsne (by norm_num) (by norm_num) (le_refl 1)
    · rw [hiqr, hq1, hq3, sub_nonneg]
      exact quantile_mono hsort hsne (by norm_num) (by norm_num) (by norm_num)
  · intro t p hp
    obtain ⟨c, _, rfl⟩ := List.mem_map.mp hp
    have hmp : (profileColumn t c).missingPct =
        round ((((colValues t c).countP (fun v => decide (v = vnull)) : ℚ) /
          (max 1 t.rows.length : ℚ)) * 100) := rfl
    have hle : (colValues t c).countP (fun v => decide (v = vnull)) ≤ t.rows.length := by
      calc (colValues t c).countP (fun v => decide (v = vnull)) ≤ (colValues t c).length :=
        List.countP_le_length _
      _ = t.rows.length := by rw [colValues, List.length_map]
    have hden1 : (1 : ℚ) ≤ (max 1 t.rows.length : ℚ) := le_max_left _ _
    have hnum0 : (0 : ℚ) ≤ ((colValues t c).countP (fun v => decide (v = vnull)) : ℚ) :=
      Nat.cast_nonneg _
    have hnumle : ((colValues t c).countP (fun v => decide (v = vnull)) : ℚ) ≤
        (max 1 t.rows.length : ℚ) := by
      refine le_trans ?_ (le_max_right _ _)
      exact_mod_cast hle
    have hx0 : (0 : ℚ) ≤ (((colValues t c).countP (fun v => decide (v = vnull)) : ℚ) /
        (max 1 t.rows.length : ℚ)) := div_nonneg hnum0 (by linarith)
    have hx1 : (((colValues t c).countP (fun v => decide (v = vnull)) : ℚ) /
        (max 1 t.rows.length : ℚ)) ≤ 1 :=
      (div_le_one (by linarith)).mpr hnumle
    rw [hmp, round_eq]
    constructor
    · apply Int.le_floor.mpr
      push_cast
      nlinarith
    · have hup : ⌊(((colValues t c).countP (fun v => decide (v = vnull)) : ℚ) /
          (max 1 t.rows.length : ℚ)) * 100 + 1/2⌋ < 101 := by
        apply Int.floor_lt.mpr
        push_cast
        nlinarith
      omega

/-- C9 witness: the invariants at the concrete table `c9Table`, with both
hypotheses discharged by evaluation. -/
theorem C9_witness_profile_invariants :
    (1 ≤ c9Summary.n ∧ c9Summary.min ≤ c9Summary.q1 ∧
      c9Summary.q1 ≤ c9Summary.median ∧ c9Summary.median ≤ c9Summary.q3 ∧
      c9Summary.q3 ≤ c9Summary.max ∧ c9Summary.iqr = c9Summary.q3 - c9Summary.q1 ∧
      0 ≤ c9Summary.iqr) ∧
    (0 ≤ (profileColumn c9Table "x").missingPct ∧
      (profileColumn c9Table "x").missingPct ≤ 100) :=
  ⟨C9_profile_invariants.1 c9Table "x" c9Summary
      (by
        have hcv : colValues c9Table "x" = [vnum 1, vnum 2] := by decide
        have hty : inferType (colValues c9Table "x") = .number := by decide
        have hnum : (profileColumn c9Table "x").numeric =
            some (numericSummaryOf (colValues c9Table "x")) := by
          simp [profileColumn, hty]
        rw [hnum, hcv]
        norm_num [numericSummaryOf, jsNumber, quantile, stdevSq, c9Summary,
          List.insertionSort, List.orderedInsert, List.countP_cons, List.countP_nil,
          decide_eq_true_eq, List.filterMap_cons, List.filterMap_nil])
      ⟨vnum 1, by decide, rfl⟩,
   C9_profile_invariants.2 c9Table (profileColumn c9Table "x")
      (List.mem_map_of_mem _ (by decide))⟩

/-! ## C2: Pearson undefinedness and topCorrelations -/

theorem sum_sq_nonneg (l : List ℚ) (m : ℚ) :
    0 ≤ (l.map (fun v => (v - m) ^ 2)).sum := by
  apply List.sum_nonneg
  intro x hx
  obtain ⟨v, -, rfl⟩ := List.mem_map.mp hx
  positivity

theorem pearson_den2_pos {xs ys : List ℚ} {r : CorrRep}
    (h : pearson xs ys = some r) : 0 < r.den2 := by
  unfold pearson at h
  by_cases h3 : min xs.length ys.length < 3
  · simp [h3] at h
  · simp only [h3, if_false] at h
    by_cases hz :
        ((xs.take (min xs.length ys.length)).map
          (fun v => (v - (xs.take (min xs.length ys.length)).sum /
            ((min xs.length ys.length : ℕ) : ℚ)) ^ 2)).sum *
        ((ys.take (min xs.length ys.length)).map
          (fun v => (v - (ys.take (min xs.length ys.length)).sum /
            ((min xs.length ys.length : ℕ) : ℚ)) ^ 2)).sum = 0
    · rw [if_pos hz] at h
      exact absurd h (by simp)
    · rw [if_neg hz] at h
      obtain rfl := (Option.some.inj h).symm
      have h1 := sum_sq_nonneg (xs.take (min xs.length ys.length))
        ((xs.take (min xs.length ys.length)).sum / ((min xs.length ys.length : ℕ) : ℚ))
      have h2 := sum_sq_nonneg (ys.take (min xs.length ys.length))
        ((ys.take (min xs.length ys.length)).sum / ((min xs.length ys.length : ℕ) : ℚ))
      exact lt_of_le_of_ne (mul_nonneg h1 h2) (Ne.symm hz)

theorem spearman_den2_pos {xs ys : List ℚ} {r : CorrRep}
    (h : spearman xs ys = some r) : 0 < r.den2 := by
  unfold spearman at h
  by_cases h3 : min xs.length ys.length < 3
  · simp [h3] at h
  · rw [if_neg h3] at h
    exact pearson_den2_pos h

theorem pairCorrs_den2_pos {t : Table} {a b : String} {p : CorrPair}
    (h : p ∈ pairCorrs t a b) : 0 < p.r.den2 := by
  unfold pairCorrs at h
  by_cases h3 : min (colNums t a).length (colNums t b).length < 3
  · simp [h3] at h
  · rw [if_neg h3] at h
    rcases List.mem_append.mp h with h1 | h1
    · cases hp : pearson (colNums t a) (colNums t b) with
      | none => rw [hp] at h1; simp at h1
      | some r =>
        rw [hp] at h1
        simp only [List.mem_singleton] at h1
        subst h1
        exact pearson_den2_pos hp
    · cases hp : spearman (colNums t a) (colNums t b) with
      | none => rw [hp] at h1; simp at h1
      | some r =>
        rw [hp] at h1
        simp only [List.mem_singleton] at h1
        subst h1
        exact spearman_den2_pos hp

/-- C2: `pearson` is NaN (`none`) exactly when there are fewer than 3 paired
values after truncating to the shorter length, or when either truncated
series has zero variance (zero sum of squared deviations); and
`topCorrelations` only ever returns finite correlations (`den2 > 0`), sorted
descending by `|r|` (the `corrGE` order on the exact representations), with
at most `k` entries. -/
theorem C2_pearson_nan_topCorrelations :
    (∀ xs ys : List ℚ, pearson xs ys = none ↔
      (min xs.length ys.length < 3 ∨
        ssd (xs.take (min xs.length ys.length)) = 0 ∨
        ssd (ys.take (min xs.length ys.length)) = 0)) ∧
    (∀ t k,
      (∀ p ∈ topCorrelations t k, 0 < p.r.den2) ∧
      (topCorrelations t k).Sorted corrGE ∧
      (topCorrelations t k).length ≤ k) := by
  constructor
  · intro xs ys
    have hxlen : (xs.take (min xs.length ys.length)).length =
        min xs.length ys.length := by
      rw [List.length_take]
      omega
    have hylen : (ys.take (min xs.length ys.length)).length =
        min xs.length ys.length := by
      rw [List.length_take]
      omega
    have hssdx : ssd (xs.take (min xs.length ys.length)) =
        ((xs.take (min xs.length ys.length)).map
          (fun v => (v - (xs.take (min xs.length ys.length)).sum /
            ((min xs.length ys.length : ℕ) : ℚ)) ^ 2)).sum := by
      unfold ssd
      rw [hxlen]
    have hssdy : ssd (ys.take (min xs.length ys.length)) =
        ((ys.take (min xs.length ys.length)).map
          (fun v => (v - (ys.take (min xs.length ys.length)).sum /
            ((min xs.length ys.length : ℕ) : ℚ)) ^ 2)).sum := by
      unfold ssd
      rw [hylen]
    unfold pearson
    by_cases h3 : min xs.length ys.length < 3
    · simp [h3]
    · simp only [h3, if_false, false_or]
      rw [hssdx, hssdy]
      split_ifs with hz
      · simp only [eq_self_iff_true, true_iff]
        exact mul_eq_zero.mp hz
      · exact iff_of_false (by simp) (fun hc => hz (mul_eq_zero.mpr hc))
  · intro t k
    refine ⟨?_, ?_, ?_⟩
    · intro p hp
      have hp1 : p ∈ (allPairs t).insertionSort corrGE := List.mem_of_mem_take hp
      have hp2 : p ∈ allPairs t :=
        ((List.perm_insertionSort corrGE (allPairs t)).mem_iff).mp hp1
      obtain ⟨pr, -, hmem⟩ := List.mem_flatMap.mp hp2
      obtain ⟨b, -, hmem2⟩ := List.mem_flatMap.mp hmem
      exact pairCorrs_den2_pos hmem2
    · exact List.Pairwise.sublist (List.take_sublist k _)
        (List.sorted_insertionSort corrGE (allPairs t))
    · exact List.length_take_le _ _

theorem topCorrelations_c2Table_eval :
    topCorrelations c2Table 3 = [c2PairP, c2PairS] := by
  have h1 : numColsOf c2Table = ["x", "y"] := by decide
  have h2x : colNums c2Table "x" = [1, 2, 3] := by decide
  have h2y : colNums c2Table "y" = [1, 2, 3] := by decide
  have h3 : pearson [1, 2, 3] [1, 2, 3] = some ⟨2, 4⟩ := by
    norm_num [pearson]
  have h4 : rank [1, 2, 3] = [1, 2, 3] := by
    norm_num [rank, tieRuns, assignRanks, List.insertionSort, List.orderedInsert,
      List.lookup]
    decide
  have h5 : spearman [1, 2, 3] [1, 2, 3] = some ⟨2, 4⟩ := by
    norm_num [spearman, h4, h3]
  have h6 : pairCorrs c2Table "x" "y" = [c2PairP, c2PairS] := by
    norm_num [pairCorrs, h2x, h2y, h3, h5, c2PairP, c2PairS]
  have h7 : allPairs c2Table = [c2PairP, c2PairS] := by
    norm_num [allPairs, h1, h6, List.enum_cons, List.enumFrom_cons,
      List.flatMap_cons, List.flatMap_nil]
  norm_num [topCorrelations, h7, List.insertionSort, List.orderedInsert, corrGE,
    absKey, c2PairP, c2PairS]

/-- C2 witness: at `c2Table` every hypothesis of the theorem's second part is
discharged by evaluation; the returned Pearson pair is finite
(`den2 = 4 > 0`). -/
theorem C2_witness_top_pair_finite : 0 < c2PairP.r.den2 :=
  (C2_pearson_nan_topCorrelations.2 c2Table 3).1 c2PairP
    (by rw [topCorrelations_c2Table_eval]; simp)

/-! ## C6: Spearman under monotonic transforms -/

theorem orderedInsert_fst_map (f : ℚ → ℚ) (hf : ∀ a b : ℚ, f a ≤ f b ↔ a ≤ b)
    (a : ℚ × ℕ) (l : List (ℚ × ℕ)) :
    (l.map (fun p => (f p.1, p.2))).orderedInsert (fun p q => p.1 ≤ q.1)
        (f a.1, a.2) =
      (l.orderedInsert (fun p q => p.1 ≤ q.1) a).map (fun p => (f p.1, p.2)) := by
  induction l with
  | nil => rfl
  | cons b l ih =>
    simp only [List.map_cons, List.orderedInsert]
    by_cases h : a.1 ≤ b.1
    · rw [if_pos ((hf a.1 b.1).mpr h), if_pos h]
      simp
    · rw [if_neg (fun hc => h ((hf a.1 b.1).mp hc)), if_neg h]
      simp only [List.map_cons]
      rw [ih]

theorem insertionSort_fst_map (f : ℚ → ℚ) (hf : ∀ a b : ℚ, f a ≤ f b ↔ a ≤ b)
    (l : List (ℚ × ℕ)) :
    (l.map (fun p => (f p.1, p.2))).insertionSort (fun p q => p.1 ≤ q.1) =
      (l.insertionSort (fun p q => p.1 ≤ q.1)).map (fun p => (f p.1, p.2)) := by
  induction l with
  | nil => rfl
  | cons a l ih =>
    simp only [List.map_cons, List.insertionSort]
    rw [ih, ← orderedInsert_fst_map f hf]

theorem tieRuns_fst_map (f : ℚ → ℚ) (hinj : ∀ a b : ℚ, f a = f b ↔ a = b)
    (l : List (ℚ × ℕ)) :
    tieRuns (l.map (fun p => (f p.1, p.2))) =
      (tieRuns l).map (List.map (fun p => (f p.1, p.2))) := by
  have key : ∀ n (l : List (ℚ × ℕ)), l.length ≤ n →
      tieRuns (l.map (fun p => (f p.1, p.2))) =
        (tieRuns l).map (List.map (fun p => (f p.1, p.2))) := by
    intro n
    induction n with
    | zero =>
      intro l hl
      rw [List.eq_nil_of_length_eq_zero (Nat.le_zero.mp hl)]
      simp [tieRuns]
    | succ n ih =>
      intro l hl
      cases l with
      | nil => simp [tieRuns]
      | cons a rest =>
        rw [List.map_cons, tieRuns, tieRuns]
        have hpredT : ((fun b : ℚ × ℕ => decide (b.1 = f a.1)) ∘
            (fun p : ℚ × ℕ => (f p.1, p.2))) =
            (fun b : ℚ × ℕ => decide (b.1 = a.1)) := by
          funext b
          simp [Function.comp, hinj]
        have htw : (rest.map (fun p => (f p.1, p.2))).takeWhile
            (fun b => decide (b.1 = f a.1)) =
            (rest.takeWhile (fun b => decide (b.1 = a.1))).map (fun p => (f p.1, p.2)) := by
          rw [List.takeWhile_map, hpredT]
        have hdw : (rest.map (fun p => (f p.1, p.2))).dropWhile
            (fun b => decide (b.1 = f a.1)) =
            (rest.dropWhile (fun b => decide (b.1 = a.1))).map (fun p => (f p.1, p.2)) := by
          rw [List.dropWhile_map, hpredT]
        rw [htw, hdw, List.map_cons, List.map_cons]
        congr 1
        exact ih _ (le_trans (List.dropWhile_sublist _).length_le
          (Nat.le_of_succ_le_succ hl))
  exact key l.length l le_rfl

theorem assignRanks_snd_map (f : ℚ → ℚ) (pos : ℕ) (gs : List (List (ℚ × ℕ))) :
    assignRanks pos (gs.map (List.map (fun p => (f p.1, p.2)))) = assignRanks pos gs := by
  induction gs generalizing pos with
  | nil => rfl
  | cons g gs ih =>
    simp only [List.map_cons, assignRanks, List.map_map, List.length_map]
    rw [ih]
    rfl

/-- `rank` is invariant under a strictly increasing transform of the
values: the pairing, the stable sort, the tie runs and the rank assignment
all commute with the transform, and the assigned ranks depend only on
positions and run lengths. -/
theorem rank_map_strictMono (f : ℚ → ℚ) (hf : StrictMono f) (vals : List ℚ) :
    rank (vals.map f) = rank vals := by
  unfold rank
  rw [List.length_map]
  have hzip : (vals.map f).zip (List.range vals.length) =
      (vals.zip (List.range vals.length)).map (fun p => (f p.1, p.2)) := by
    rw [List.zip_map_left]
    rfl
  rw [hzip, insertionSort_fst_map f (fun a b => hf.le_iff_le),
    tieRuns_fst_map f (fun a b => hf.injective.eq_iff),
    assignRanks_snd_map]

/-- C6 (amended): `spearman` is invariant under strictly *increasing*
transforms of either input series (both at once here; take the identity for
the untouched side). -/
theorem C6_spearman_strictMono_invariant (xs ys : List ℚ) (f g : ℚ → ℚ)
    (hf : StrictMono f) (hg : StrictMono g)
    (hn : 3 ≤ min xs.length ys.length) :
    spearman (xs.map f) (ys.map g) = spearman xs ys := by
  unfold spearman
  rw [List.length_map, List.length_map]
  rw [if_neg (by omega), if_neg (by omega)]
  rw [← List.map_take, ← List.map_take,
    rank_map_strictMono f hf, rank_map_strictMono g hg]

/-- C6 counterexample: "strictly monotonic" includes strictly *decreasing*
transforms, and negation flips the sign of Spearman: for `xs = ys = [1,2,3]`
the correlation is `2/√4 = 1`, but after negating `xs` it is `-2/√4 = -1`,
a different real number — the claim as stated fails. -/
theorem C6_cex_spearman_not_antitone_invariant :
    StrictAnti (fun x : ℚ => -x) ∧
    spearman ([1, 2, 3].map (fun x : ℚ => -x)) [1, 2, 3] = some ⟨-2, 4⟩ ∧
    spearman [1, 2, 3] [1, 2, 3] = some ⟨2, 4⟩ ∧
    ¬ CorrRep.sameR ⟨-2, 4⟩ ⟨2, 4⟩ := by
  refine ⟨fun a b h => by simpa using h, ?_, ?_, ?_⟩
  · have h4 : rank [-1, -2, -3] = [3, 2, 1] := by
      norm_num [rank, tieRuns, assignRanks, List.insertionSort, List.orderedInsert,
        List.lookup]
      decide
    have h3 : pearson [3, 2, 1] [1, 2, 3] = some ⟨-2, 4⟩ := by
      norm_num [pearson]
    have h4b : rank [1, 2, 3] = [1, 2, 3] := by
      norm_num [rank, tieRuns, assignRanks, List.insertionSort, List.orderedInsert,
        List.lookup]
      decide
    norm_num [spearman, h4, h4b, h3]
  · have h4b : rank [1, 2, 3] = [1, 2, 3] := by
      norm_num [rank, tieRuns, assignRanks, List.insertionSort, List.orderedInsert,
        List.lookup]
      decide
    have h3 : pearson [1, 2, 3] [1, 2, 3] = some ⟨2, 4⟩ := by
      norm_num [pearson]
    norm_num [spearman, h4b, h3]
  · intro hc
    have := hc.1.mpr (by norm_num)
    norm_num at this

/-- C6 witness: the amended invariance applied at the strictly increasing
transform `x ↦ x + 1` on the first series (identity on the second), for the
concrete series `[1,2,3]`. -/
theorem C6_witness_spearman_strictMono_invariant :
    spearman ([1, 2, 3].map (fun x : ℚ => x + 1)) ([1, 2, 3].map id) =
      spearman [1, 2, 3] [1, 2, 3] :=
  C6_spearman_strictMono_invariant [1, 2, 3] [1, 2, 3] _ _
    (fun a b h => by simpa using h) strictMono_id (by simp)

/-! ## C3: the changepoint scan -/

theorem foldl_bestSplit_spec (ys : List ℚ) (l : List ℕ) (init : ℤ × ℚ) :
    init.2 ≤ (l.foldl (fun best split =>
        if best.2 < gainAt ys split then ((split : ℤ), gainAt ys split) else best)
      init).2 ∧
    (∀ s ∈ l, gainAt ys s ≤ (l.foldl (fun best split =>
        if best.2 < gainAt ys split then ((split : ℤ), gainAt ys split) else best)
      init).2) ∧
    ((l.foldl (fun best split =>
        if best.2 < gainAt ys split then ((split : ℤ), gainAt ys split) else best)
      init) = init ∨
      ∃ s ∈ l, (l.foldl (fun best split =>
        if best.2 < gainAt ys split then ((split : ℤ), gainAt ys split) else best)
      init) = ((s : ℤ), gainAt ys s)) := by
  induction l generalizing init with
  | nil => simp
  | cons a l ih =>
    simp only [List.foldl_cons]
    by_cases h : init.2 < gainAt ys a
    · rw [if_pos h]
      obtain ⟨h1, h2, h3⟩ := ih ((a : ℤ), gainAt ys a)
      refine ⟨le_trans (le_of_lt h) h1, ?_, ?_⟩
      · intro s hs
        rcases List.mem_cons.mp hs with rfl | hs
        · exact h1
        · exact h2 s hs
      · rcases h3 with h3 | ⟨s, hs, h3⟩
        · exact Or.inr ⟨a, List.mem_cons_self a l, h3⟩
        · exact Or.inr ⟨s, List.mem_cons_of_mem _ hs, h3⟩
    · rw [if_neg h]
      obtain ⟨h1, h2, h3⟩ := ih init
      refine ⟨h1, ?_, ?_⟩
      · intro s hs
        rcases List.mem_cons.mp hs with rfl | hs
        · exact le_trans (le_of_not_lt h) h1
        · exact h2 s hs
      · rcases h3 with h3 | ⟨s, hs, h3⟩
        · exact Or.inl h3
        · exact Or.inr ⟨s, List.mem_cons_of_mem _ hs, h3⟩

theorem bestSplit_spec (ys : List ℚ) :
    0 ≤ (bestSplit ys).2 ∧
    (∀ s, 3 ≤ s → s ≤ ys.length - 3 → gainAt ys s ≤ (bestSplit ys).2) ∧
    (bestSplit ys = (-1, 0) ∨ ∃ s, 3 ≤ s ∧ s ≤ ys.length - 3 ∧
      bestSplit ys = ((s : ℤ), gainAt ys s)) := by
  have hmem : ∀ s : ℕ, s ∈ List.range' 3 (ys.length - 5) ↔
      (3 ≤ s ∧ s ≤ ys.length - 3) := by
    intro s
    rw [List.mem_range'_1]
    omega
  obtain ⟨h1, h2, h3⟩ := foldl_bestSplit_spec ys (List.range' 3 (ys.length - 5)) (-1, 0)
  refine ⟨h1, fun s hs3 hsu => h2 s ((hmem s).mpr ⟨hs3, hsu⟩), ?_⟩
  rcases h3 with h3 | ⟨s, hs, h3⟩
  · exact Or.inl h3
  · obtain ⟨hs3, hsu⟩ := (hmem s).mp hs
    exact Or.inr ⟨s, hs3, hsu, h3⟩

theorem trendResultOf_changepoint (dc nc : String) (pts : List (ℤ × ℚ)) :
    (trendResultOf dc nc pts).changepoint =
      (if 3 / 10 ≤ (bestSplit (pts.map Prod.snd)).2
        then some ⟨(bestSplit (pts.map Prod.snd)).1,
          roundTo 2 (bestSplit (pts.map Prod.snd)).2⟩
        else none) := rfl

theorem findCol_cpTable_date : findCol cpTable .date = some "d" := by decide

theorem findCol_cpTable_number : findCol cpTable .number = some "v" := by decide

theorem trendPoints_cpTable :
    trendPoints cpTable "d" "v" =
      [(0, 1), (1, 1), (2, 1), (3, 1), (4, 1), (5, 1),
       (6, 10), (7, 10), (8, 10), (9, 10), (10, 10), (11, 10)] := by decide

set_option maxHeartbeats 1600000 in
theorem bestSplit_cpYs :
    bestSplit [1, 1, 1, 1, 1, 1, 10, 10, 10, 10, 10, 10] = (6, 1) := by
  have g3 : gainAt [1, 1, 1, 1, 1, 1, 10, 10, 10, 10, 10, 10] 3 = 1/3 := by
    norm_num [gainAt]
  have g4 : gainAt [1, 1, 1, 1, 1, 1, 10, 10, 10, 10, 10, 10] 4 = 1/2 := by
    norm_num [gainAt]
  have g5 : gainAt [1, 1, 1, 1, 1, 1, 10, 10, 10, 10, 10, 10] 5 = 5/7 := by
    norm_num [gainAt]
  have g6 : gainAt [1, 1, 1, 1, 1, 1, 10, 10, 10, 10, 10, 10] 6 = 1 := by
    norm_num [gainAt]
  have g7 : gainAt [1, 1, 1, 1, 1, 1, 10, 10, 10, 10, 10, 10] 7 = 5/7 := by
    norm_num [gainAt]
  have g8 : gainAt [1, 1, 1, 1, 1, 1, 10, 10, 10, 10, 10, 10] 8 = 1/2 := by
    norm_num [gainAt]
  have g9 : gainAt [1, 1, 1, 1, 1, 1, 10, 10, 10, 10, 10, 10] 9 = 1/3 := by
    norm_num [gainAt]
  have hr : List.range' 3 ((12 : ℕ) - 5) = [3, 4, 5, 6, 7, 8, 9] := by decide
  unfold bestSplit
  norm_num [hr, List.foldl_cons, g3, g4, g5, g6, g7, g8, g9]

theorem firstDateTrend_cpTable_eval :
    firstDateTrend cpTable =
      some (trendResultOf "d" "v" (trendPoints cpTable "d" "v")) := by
  unfold firstDateTrend
  rw [findCol_cpTable_date, findCol_cpTable_number]
  show (if (trendPoints cpTable "d" "v").length < 3 then none
      else some (trendResultOf "d" "v" (trendPoints cpTable "d" "v"))) = _
  rw [if_neg (by rw [trendPoints_cpTable]; decide)]

theorem firstDateTrend_cpTable_changepoint :
    (firstDateTrend cpTable).map (fun r => r.changepoint) =
      some (some ⟨6, 1⟩) := by
  rw [firstDateTrend_cpTable_eval, Option.map_some']
  rw [trendResultOf_changepoint, trendPoints_cpTable]
  have hys : ([(0, 1), (1, 1), (2, 1), (3, 1), (4, 1), (5, 1), (6, 10), (7, 10),
      (8, 10), (9, 10), (10, 10), (11, 10)] : List (ℤ × ℚ)).map Prod.snd =
      [1, 1, 1, 1, 1, 1, 10, 10, 10, 10, 10, 10] := by decide
  rw [hys, bestSplit_cpYs]
  norm_num [roundTo]

/-- C3: `firstDateTrend`'s changepoint scan considers splits `3 ≤ s ≤ n-3`,
scores each by `gain = 1 - (sse1+sse2)/sseFull` over the two-segment
piecewise-constant fit (`gainAt`), keeps the earliest maximum, and reports a
changepoint exactly when that maximum gain reaches `0.30`, with
`improvement` the gain rounded to 2 decimals; for the value series
`[1,1,1,1,1,1,10,10,10,10,10,10]` paired with valid ascending dates the
reported changepoint is at index 6 with gain `1 ≥ 0.9`. -/
theorem C3_changepoint_scan :
    (∀ t res, firstDateTrend t = some res →
      ∃ dc nc, findCol t .date = some dc ∧ findCol t .number = some nc ∧
        res.dateCol = dc ∧ res.numCol = nc ∧
        (res.changepoint = none →
          ∀ s, 3 ≤ s → s ≤ ((trendPoints t dc nc).map Prod.snd).length - 3 →
            gainAt ((trendPoints t dc nc).map Prod.snd) s < 3/10) ∧
        (∀ cp, res.changepoint = some cp →
          ∃ s, 3 ≤ s ∧ s ≤ ((trendPoints t dc nc).map Prod.snd).length - 3 ∧
            cp.atIndex = (s : ℤ) ∧
            3/10 ≤ gainAt ((trendPoints t dc nc).map Prod.snd) s ∧
            cp.improvement = roundTo 2 (gainAt ((trendPoints t dc nc).map Prod.snd) s) ∧
            ∀ u, 3 ≤ u → u ≤ ((trendPoints t dc nc).map Prod.snd).length - 3 →
              gainAt ((trendPoints t dc nc).map Prod.snd) u ≤
                gainAt ((trendPoints t dc nc).map Prod.snd) s)) ∧
    (∃ cp, (firstDateTrend cpTable).map (fun r => r.changepoint) = some (some cp) ∧
      cp.atIndex = 6 ∧ (9/10 : ℚ) ≤ cp.improvement) := by
  constructor
  · intro t res h
    unfold firstDateTrend at h
    cases hdc : findCol t .date with
    | none => rw [hdc] at h; exact absurd h (by simp)
    | some dc =>
      cases hnc : findCol t .number with
      | none => rw [hdc, hnc] at h; exact absurd h (by simp)
      | some nc =>
        rw [hdc, hnc] at h
        have h2 : (if (trendPoints t dc nc).length < 3 then none
            else some (trendResultOf dc nc (trendPoints t dc nc))) = some res := h
        by_cases hlen : (trendPoints t dc nc).length < 3
        · rw [if_pos hlen] at h2
          exact absurd h2 (by simp)
        · rw [if_neg hlen] at h2
          obtain rfl := (Option.some.inj h2).symm
          obtain ⟨hb0, hble, hbex⟩ := bestSplit_spec ((trendPoints t dc nc).map Prod.snd)
          refine ⟨dc, nc, rfl, rfl, rfl, rfl, ?_, ?_⟩
          · intro hnone s hs3 hsu
            rw [trendResultOf_changepoint] at hnone
            by_cases hg : (3:ℚ)/10 ≤ (bestSplit ((trendPoints t dc nc).map Prod.snd)).2
            · rw [if_pos hg] at hnone
              exact absurd hnone (by simp)
            · exact lt_of_le_of_lt (hble s hs3 hsu) (lt_of_not_le hg)
          · intro cp hcp
            rw [trendResultOf_changepoint] at hcp
            by_cases hg : (3:ℚ)/10 ≤ (bestSplit ((trendPoints t dc nc).map Prod.snd)).2
            · rw [if_pos hg] at hcp
              obtain rfl := (Option.some.inj hcp).symm
              rcases hbex with hb | ⟨s, hs3, hsu, hb⟩
              · rw [hb] at hg
                norm_num at hg
              · have hg' : (3:ℚ)/10 ≤ gainAt ((trendPoints t dc nc).map Prod.snd) s := by
                  rw [hb] at hg
                  exact hg
                refine ⟨s, hs3, hsu, by rw [hb], hg', by rw [hb], ?_⟩
                intro u hu3 huu
                have hu := hble u hu3 huu
                rw [hb] at hu
                exact hu
            · rw [if_neg hg] at hcp
              exact absurd hcp (by simp)
  · exact ⟨⟨6, 1⟩, firstDateTrend_cpTable_changepoint, rfl, by norm_num⟩

/-- C3 witness: the scan characterisation applied at `cpTable`, every
hypothesis discharged by evaluation; the maximality property at the reported
index 6 instantiated at the competing split 5. -/
theorem C3_witness_changepoint_scan :
    gainAt [1, 1, 1, 1, 1, 1, 10, 10, 10, 10, 10, 10] 5 ≤
      gainAt [1, 1, 1, 1, 1, 1, 10, 10, 10, 10, 10, 10] 6 := by
  obtain ⟨dc, nc, hdc, hnc, -, -, -, hsome⟩ :=
    C3_changepoint_scan.1 cpTable _ firstDateTrend_cpTable_eval
  rw [findCol_cpTable_date] at hdc
  rw [findCol_cpTable_number] at hnc
  obtain rfl : dc = "d" := (Option.some.inj hdc).symm
  obtain rfl : nc = "v" := (Option.some.inj hnc).symm
  have hcp : (trendResultOf "d" "v" (trendPoints cpTable "d" "v")).changepoint =
      some ⟨6, 1⟩ := by
    have h := firstDateTrend_cpTable_changepoint
    rw [firstDateTrend_cpTable_eval, Option.map_some'] at h
    exact Option.some.inj h
  obtain ⟨s, -, -, hsix, -, -, hmax⟩ := hsome ⟨6, 1⟩ hcp
  have hs6 : s = 6 := by
    have h6 : ((6 : ℤ)) = (s : ℤ) := hsix
    exact_mod_cast h6.symm
  subst hs6
  have h5 := hmax 5 (by norm_num) (by rw [trendPoints_cpTable]; decide)
  rw [trendPoints_cpTable] at h5
  have hys : ([(0, 1), (1, 1), (2, 1), (3, 1), (4, 1), (5, 1), (6, 10), (7, 10),
      (8, 10), (9, 10), (10, 10), (11, 10)] : List (ℤ × ℚ)).map Prod.snd =
      [1, 1, 1, 1, 1, 1, 10, 10, 10, 10, 10, 10] := by decide
  rw [hys] at h5
  exact h5

/-! ## C5: duplicate rows -/

theorem dupGo_dedupFirst (rs : List Row) :
    ∀ seen, dupGo seen rs + (dedupFirst seen (rs.map rowKey)).length = rs.length := by
  induction rs with
  | nil => intro seen; rfl
  | cons r rs ih =>
    intro seen
    rw [List.map_cons, dupGo, dedupFirst]
    by_cases h : rowKey r ∈ seen
    · rw [if_pos h, if_pos h, List.length_cons]
      have := ih seen
      omega
    · rw [if_neg h, if_neg h, List.length_cons, List.length_cons]
      have := ih (rowKey r :: seen)
      omega

/-- C5 counterexample: two rows carrying the same field-to-value mapping
(each a permutation of the other, under distinct keys) are NOT counted as
duplicates, because `JSON.stringify` serialises fields in insertion order
and the keys differ: the count is 0 where the claim demands 1. -/
theorem C5_cex_duplicateRows_field_order :
    duplicateRows c5PermTable = 0 ∧
    ([("a", vnum 1), ("b", vnum 2)] : Row).Perm [("b", vnum 2), ("a", vnum 1)] ∧
    duplicateRows c5PermTable ≠ 1 := by
  refine ⟨by decide, ?_, by decide⟩
  decide

/-- C8: every analysis function of the embedding — `profileTable`,
`topCorrelations`, `firstDateTrend`, `duplicateRows`, `categoryImbalance`,
both seasonality functions, and the full `generateInsightsAll` pipeline — is
a pure total function of the input table: the first and second run on the
same unmodified table are the same value (the source reads only its
argument: no caching, no random seeds, no mutable module state), and equal
inputs give equal outputs. -/
theorem C8_pipeline_deterministic :
    (∀ t : Table,
      (profileTable t, topCorrelations t 5, firstDateTrend t, duplicateRows t,
        categoryImbalance t, weekdaySeasonality t, monthSeasonality t,
        generateInsightsAll t) =
      (profileTable t, topCorrelations t 5, firstDateTrend t, duplicateRows t,
        categoryImbalance t, weekdaySeasonality t, monthSeasonality t,
        generateInsightsAll t)) ∧
    (∀ t t' : Table, t = t' →
      generateInsightsAll t = generateInsightsAll t') :=
  ⟨fun _ => rfl, fun _ _ h => congrArg generateInsightsAll h⟩

/-- C8 witness: the pipeline run twice on the concrete table `c9Table`. -/
theorem C8_witness_pipeline_deterministic :
    generateInsightsAll c9Table = generateInsightsAll c9Table :=
  C8_pipeline_deterministic.2 c9Table c9Table rfl

/-- C5 (amended): `duplicateRows` counts a row exactly when a row with the
same `JSON.stringify` serialisation — same fields with the same values in
the same insertion order, `undefined`-valued fields dropped — occurred
earlier; equivalently, the count is the number of rows minus the number of
distinct serialised keys, so the first occurrence is never counted.  Rows
`[{a:1},{a:1},{a:2}]` yield a duplicate count of 1.  (After `coerceTable`
every row carries the column set in column order, making the key canonical
there; as a standalone function the key is order-sensitive.) -/
theorem C5_duplicateRows_serialization :
    (∀ t, duplicateRows t +
      (dedupFirst [] (t.rows.map rowKey)).length = t.rows.length) ∧
    duplicateRows c5DupTable = 1 := by
  exact ⟨fun t => dupGo_dedupFirst t.rows [], by decide⟩

end XI
